import Mathlib

/-!
Verification of the markdown/DOCX conversion core of the `md_extension`
repository.  JavaScript strings are modelled as `List Char` (sequences of
Unicode scalar values); byte buffers as `List Nat` with every entry `< 256`.
Each definition is a shallow embedding of the correspondingly named function
of the TypeScript source.
-/

namespace MdExt

/-- Shorthand for the model of a JavaScript string. -/
abbrev Str := List Char

/-- Turn a Lean string literal into the model type. -/
def lit (s : String) : Str := s.data

/-- The JavaScript whitespace set used by `trim`, `trimEnd` and `\s`
(ASCII whitespace, NBSP, the Unicode space separators, line/paragraph
separators and the BOM). -/
def jsWhitespace (c : Char) : Bool :=
  let n := c.toNat
  n = 0x9 || n = 0xA || n = 0xB || n = 0xC || n = 0xD || n = 0x20 ||
  n = 0xA0 || n = 0x1680 || (0x2000 ≤ n && n ≤ 0x200A) ||
  n = 0x2028 || n = 0x2029 || n = 0x202F || n = 0x205F || n = 0x3000 || n = 0xFEFF

/-- Model of `String.prototype.trimStart`. -/
def trimStart (s : Str) : Str := s.dropWhile jsWhitespace

/-- Model of `String.prototype.trimEnd`. -/
def trimEnd (s : Str) : Str := (s.reverse.dropWhile jsWhitespace).reverse

/-- Model of `String.prototype.trim`. -/
def trim (s : Str) : Str := trimEnd (trimStart s)

/-- Does `pat` occur at the head of `s` (model of `String.startsWith`)? -/
def startsWithLit : Str → Str → Bool
  | [], _ => true
  | _ :: _, [] => false
  | p :: ps, c :: cs => p == c && startsWithLit ps cs

/-- Does `pat` occur anywhere in `s` (model of `String.includes` and of
testing an unanchored literal regex)? -/
def containsSub (pat : Str) (s : Str) : Bool :=
  match s with
  | [] => startsWithLit pat []
  | _ :: cs => startsWithLit pat s || containsSub pat cs

/-- Model of `String.prototype.split('\n')`; like JS, splitting the empty
string yields one empty piece. -/
def splitNl (s : Str) : List Str :=
  match s with
  | [] => [[]]
  | c :: cs =>
    if c = '\n' then [] :: splitNl cs
    else match splitNl cs with
      | [] => [[c]]
      | l :: ls => (c :: l) :: ls

/-- Model of `Array.prototype.join(sep)`. -/
def joinSep (sep : Str) : List Str → Str
  | [] => []
  | [l] => l
  | l :: ls => l ++ sep ++ joinSep sep ls

/-- ASCII-only model of `String.prototype.toLowerCase` (the language tags the
converter compares against are ASCII). -/
def toLowerAscii (s : Str) : Str :=
  s.map fun c => if 'A' ≤ c && c ≤ 'Z' then Char.ofNat (c.toNat + 32) else c

/-- Model of `String.prototype.includes('|')` specialised to one character. -/
def containsChar (c : Char) (s : Str) : Bool := s.contains c

end MdExt

namespace MdExt

/-! ## PlantUML URL encoding (`src/converters/markdown-converter.ts`, `encodePlantUml`) -/

/-- The PlantUML 64-character alphabet from `encodePlantUml`. -/
def plantUmlAlphabet : Str :=
  lit "0123456789ABCDEFGHIJKLMNOPQRSTUVWXYZabcdefghijklmnopqrstuvwxyz-_"

/-- Embedding of the inner `encode64` helper: `chars.charAt(num & 0x3f)`. -/
def encode64 (num : Nat) : Char := plantUmlAlphabet.getD (num % 64) '?'

/-- One loop iteration of `encodePlantUml`: three input bytes become four
output characters (`>> 2`, `& 0x3`, `<< 4`, ... rendered with `/` and `%`). -/
def encodePlantUmlChunk (b1 b2 b3 : Nat) : Str :=
  [encode64 (b1 / 4),
   encode64 ((b1 % 4) * 16 + b2 / 16),
   encode64 ((b2 % 16) * 4 + b3 / 64),
   encode64 b3]

/-- Embedding of the 6-bit packing loop of `encodePlantUml`: the source walks
the DEFLATE output three bytes at a time, substituting `0` for missing
trailing bytes.  The DEFLATE step itself is the external `zlib.deflateSync`
primitive; the claims quantify over its output bytes, so the packing takes
the compressed byte sequence as its argument. -/
def encodePlantUmlPack : List Nat → Str
  | [] => []
  | [b1] => encodePlantUmlChunk b1 0 0
  | [b1, b2] => encodePlantUmlChunk b1 b2 0
  | b1 :: b2 :: b3 :: rest => encodePlantUmlChunk b1 b2 b3 ++ encodePlantUmlPack rest

/-! ## Image probe (`src/converters/markdown-docx-converter.ts`, `getImageDimensions`) -/

/-- Model of `buffer.readUInt16BE` (the source only calls it in bounds). -/
def readUInt16BE (buf : List Nat) (off : Nat) : Nat :=
  buf.getD off 0 * 256 + buf.getD (off + 1) 0

/-- Model of `buffer.readUInt32BE` (the source only calls it in bounds). -/
def readUInt32BE (buf : List Nat) (off : Nat) : Nat :=
  buf.getD off 0 * 16777216 + buf.getD (off + 1) 0 * 65536 +
  buf.getD (off + 2) 0 * 256 + buf.getD (off + 3) 0

/-- The SOF-marker test of the JPEG scan: `0xc0..0xcf` except `0xc4`,
`0xc8`, `0xcc`. -/
def isSofMarker (marker : Nat) : Bool :=
  0xc0 ≤ marker && marker ≤ 0xcf && marker ≠ 0xc4 && marker ≠ 0xc8 && marker ≠ 0xcc

/-- The JPEG marker-segment `while` loop of `getImageDimensions`.  The loop
variable `offset` strictly increases, so fuel `buf.length` is enough for any
execution that leaves the loop; the recursion is on fuel. -/
def jpegScan (buf : List Nat) : Nat → Nat → Option (Nat × Nat)
  | 0, _ => none
  | fuel + 1, off =>
    if off + 9 < buf.length then
      if buf.getD off 0 ≠ 0xff then jpegScan buf fuel (off + 1)
      else
        let marker := buf.getD (off + 1) 0
        let len := readUInt16BE buf (off + 2)
        if isSofMarker marker ∧ off + 8 < buf.length then
          some (readUInt16BE buf (off + 7), readUInt16BE buf (off + 5))
        else if len < 2 then none
        else jpegScan buf fuel (off + 2 + len)
    else none

/-- Embedding of `getImageDimensions`: result is `some (width, height)` or
`none`.  Note the PNG branch checks only the first four signature bytes
`0x89 'P' 'N' 'G'`. -/
def getImageDimensions (buf : List Nat) : Option (Nat × Nat) :=
  if buf.length < 24 then none
  else if buf.getD 0 0 = 0x89 ∧ buf.getD 1 0 = 0x50 ∧ buf.getD 2 0 = 0x4e ∧
          buf.getD 3 0 = 0x47 then
    some (readUInt32BE buf 16, readUInt32BE buf 20)
  else if buf.getD 0 0 = 0xff ∧ buf.getD 1 0 = 0xd8 then
    jpegScan buf buf.length 2
  else none

/-- Embedding of `scaleToMaxWidth`.  The source computes
`Math.round(width * (maxWidth / width))` in floating point; it is modelled
exactly over rationals as rounding of `width * maxWidth / width`. -/
def scaleToMaxWidth (width height maxWidth : Nat) : Nat × Nat :=
  if width ≤ maxWidth then (width, height)
  else ((2 * width * maxWidth + width) / (2 * width),
        (2 * height * maxWidth + width) / (2 * width))

end MdExt

namespace MdExt

/-! ## Diagram marker codec
(`src/converters/markdown-docx/diagram.ts`, `encodeDiagramMarker`;
`src/converters/markdown-docx/inline.ts`, `buildDiagramBlock` inside
`htmlToMarkdown`).  The JavaScript runtime primitives the source calls
(`JSON.stringify`/`JSON.parse`, `Buffer` UTF-8 conversion, `Buffer` base64
conversion) are modelled below from their standard specifications. -/

/-- Lowercase hexadecimal digit, as emitted by `JSON.stringify` in
`\u00XX` escapes. -/
def hexDigitChar (n : Nat) : Char :=
  if n < 10 then Char.ofNat (48 + n) else Char.ofNat (87 + n)

/-- Model of the `JSON.stringify` escaping of one character: quote and
backslash get a backslash escape, the five named control characters get
their short escapes, the remaining controls below `0x20` get `\u00XX`, and
everything else (including all non-ASCII) is emitted verbatim. -/
def escChar (c : Char) : Str :=
  if c = '"' then ['\\', '"']
  else if c = '\\' then ['\\', '\\']
  else if c.toNat = 8 then ['\\', 'b']
  else if c.toNat = 9 then ['\\', 't']
  else if c.toNat = 10 then ['\\', 'n']
  else if c.toNat = 12 then ['\\', 'f']
  else if c.toNat = 13 then ['\\', 'r']
  else if c.toNat < 32 then
    ['\\', 'u', '0', '0', hexDigitChar (c.toNat / 16), hexDigitChar (c.toNat % 16)]
  else [c]

/-- JSON string-escape a whole string. -/
def escString (s : Str) : Str := (s.map escChar).flatten

/-- Model of `JSON.stringify` on the two-field object literal of
`encodeDiagramMarker`: keys appear in insertion order `type`, `code`. -/
def jsonStringifyPair (t c : Str) : Str :=
  lit "\x7b\"type\":\"" ++ escString t ++ lit "\",\"code\":\"" ++ escString c ++ lit "\"\x7d"

/-- Value of one hexadecimal digit (as accepted in a JSON `\u` escape). -/
def hexVal (c : Char) : Option Nat :=
  if '0' ≤ c ∧ c ≤ '9' then some (c.toNat - 48)
  else if 'a' ≤ c ∧ c ≤ 'f' then some (c.toNat - 87)
  else if 'A' ≤ c ∧ c ≤ 'F' then some (c.toNat - 55)
  else none

/-- Single-character JSON escapes other than `\u`. -/
def unescapeChar (e : Char) : Option Char :=
  if e = '"' then some '"'
  else if e = '\\' then some '\\'
  else if e = '/' then some '/'
  else if e = 'b' then some (Char.ofNat 8)
  else if e = 'f' then some (Char.ofNat 12)
  else if e = 'n' then some (Char.ofNat 10)
  else if e = 'r' then some (Char.ofNat 13)
  else if e = 't' then some (Char.ofNat 9)
  else none

/-- One step of the JSON string-body parser: `some (none, rest)` on the
closing quote, `some (some c, rest)` for one decoded content character,
`none` on malformed input.  As in the JSON grammar, a raw unescaped
control character is rejected.  Surrogate-pair `\u` escapes are not
modelled (the encoder never produces them). -/
def parseStringStep (s : Str) : Option (Option Char × Str) :=
  match s with
  | [] => none
  | c :: rest =>
    if c = '"' then some (none, rest)
    else if c = '\\' then
      match rest with
      | [] => none
      | e :: rest2 =>
        if e = 'u' then
          match rest2 with
          | h1 :: h2 :: h3 :: h4 :: rest3 =>
            match hexVal h1, hexVal h2, hexVal h3, hexVal h4 with
            | some a, some b, some x, some d =>
              let v := ((a * 16 + b) * 16 + x) * 16 + d
              if Nat.isValidChar v then some (some (Char.ofNat v), rest3) else none
            | _, _, _, _ => none
          | _ => none
        else
          match unescapeChar e with
          | some u => some (some u, rest2)
          | none => none
    else if c.toNat < 0x20 then none
    else some (some c, rest)

/-- Iterate `parseStringStep` up to and including the closing quote; each
step consumes at least one character, so fuel `s.length` realises any
successful parse. -/
def parseStringLoop : Nat → Str → Option (Str × Str)
  | 0, _ => none
  | fuel + 1, s =>
    match parseStringStep s with
    | none => none
    | some (none, rest) => some ([], rest)
    | some (some c, rest) =>
      (fun p => (c :: p.1, p.2)) <$> parseStringLoop fuel rest

/-- Parse the body of a JSON string up to and including its closing quote,
returning the decoded content and the remaining input. -/
def parseStringBody (s : Str) : Option (Str × Str) := parseStringLoop s.length s

/-- JSON insignificant whitespace: `JSON.parse` skips exactly space, tab,
line feed and carriage return between tokens. -/
def jsonWsChar (c : Char) : Bool :=
  c = ' ' ∨ c = '\t' ∨ c = '\n' ∨ c = '\r'

/-- Skip leading JSON whitespace. -/
def skipWs (s : Str) : Str := s.dropWhile jsonWsChar

/-- JSON values as returned by `JSON.parse`.  A number keeps its lexeme:
no judged property depends on a numeric value, only on the fact that a
number is not a string. -/
inductive JsonValue where
  | jnull
  | jbool (b : Bool)
  | jnum (lexeme : Str)
  | jstr (s : Str)
  | jarr (elems : List JsonValue)
  | jobj (fields : List (Str × JsonValue))

/-- An ASCII decimal digit. -/
def jsonDigit (c : Char) : Bool := '0' ≤ c ∧ c ≤ '9'

/-- Lex one JSON number (`-? int frac? exp?`).  A `.` or `e` not followed
by a digit is left unconsumed rather than failing the number, and a
redundant leading zero ends the integer part: `JSON.parse` rejects such
inputs outright, and the model rejects them equally, one step later, at
the delimiter / end-of-input check. -/
def parseJsonNumber (s : Str) : Option (Str × Str) :=
  let p : Str × Str :=
    match s with
    | '-' :: r => (['-'], r)
    | _ => ([], s)
  match p.2 with
  | [] => none
  | d :: _ =>
    if jsonDigit d then
      let intPart := if d = '0' then ['0'] else p.2.takeWhile jsonDigit
      let s2 := p.2.drop intPart.length
      let fr : Str × Str :=
        match s2 with
        | '.' :: r =>
          let ds := r.takeWhile jsonDigit
          if ds = [] then ([], s2) else ('.' :: ds, r.drop ds.length)
        | _ => ([], s2)
      let ex : Str × Str :=
        match fr.2 with
        | e :: r =>
          if e = 'e' ∨ e = 'E' then
            let sg : Str × Str :=
              match r with
              | u :: r2 => if u = '+' ∨ u = '-' then ([u], r2) else ([], r)
              | [] => ([], r)
            let ds := sg.2.takeWhile jsonDigit
            if ds = [] then ([], fr.2) else (e :: (sg.1 ++ ds), sg.2.drop ds.length)
          else ([], fr.2)
        | [] => ([], fr.2)
      some (p.1 ++ intPart ++ fr.1 ++ ex.1, ex.2)
    else none

/-- One unfolding of the JSON value parser, the recursive object-member
and array-element parsers passed as arguments. -/
def parseJsonValueStep (recM : Str → Option (List (Str × JsonValue) × Str))
    (recE : Str → Option (List JsonValue × Str)) (s : Str) :
    Option (JsonValue × Str) :=
  match skipWs s with
  | [] => none
  | c :: rest =>
    if c = '"' then
      match parseStringBody rest with
      | some (cs, r2) => some (JsonValue.jstr cs, r2)
      | none => none
    else if c = '\x7b' then
      match skipWs rest with
      | '\x7d' :: r2 => some (JsonValue.jobj [], r2)
      | _ =>
        match recM rest with
        | some (fields, r2) => some (JsonValue.jobj fields, r2)
        | none => none
    else if c = '[' then
      match skipWs rest with
      | ']' :: r2 => some (JsonValue.jarr [], r2)
      | _ =>
        match recE rest with
        | some (elems, r2) => some (JsonValue.jarr elems, r2)
        | none => none
    else if startsWithLit (lit "true") (c :: rest) then some (JsonValue.jbool true, rest.drop 3)
    else if startsWithLit (lit "false") (c :: rest) then some (JsonValue.jbool false, rest.drop 4)
    else if startsWithLit (lit "null") (c :: rest) then some (JsonValue.jnull, rest.drop 3)
    else
      match parseJsonNumber (c :: rest) with
      | some (lx, r2) => some (JsonValue.jnum lx, r2)
      | none => none

/-- One unfolding of the object-member list parser (entered past the
opening brace): `"key" : value`, then a comma and further members or the
closing brace. -/
def parseJsonMembersStep (recV : Str → Option (JsonValue × Str))
    (recM : Str → Option (List (Str × JsonValue) × Str)) (s : Str) :
    Option (List (Str × JsonValue) × Str) :=
  match skipWs s with
  | '"' :: rest =>
    match parseStringBody rest with
    | some (key, r2) =>
      (match skipWs r2 with
       | ':' :: r3 =>
         (match recV r3 with
          | some (v, r4) =>
            (match skipWs r4 with
             | ',' :: r5 =>
               (match recM r5 with
                | some (fields, r6) => some ((key, v) :: fields, r6)
                | none => none)
             | '\x7d' :: r5 => some ([(key, v)], r5)
             | _ => none)
          | none => none)
       | _ => none)
    | none => none
  | _ => none

/-- One unfolding of the array-element list parser (entered past the
opening bracket): `value`, then a comma and further elements or the
closing bracket. -/
def parseJsonElemsStep (recV : Str → Option (JsonValue × Str))
    (recE : Str → Option (List JsonValue × Str)) (s : Str) :
    Option (List JsonValue × Str) :=
  match recV s with
  | some (v, r2) =>
    (match skipWs r2 with
     | ',' :: r3 =>
       (match recE r3 with
        | some (elems, r4) => some (v :: elems, r4)
        | none => none)
     | ']' :: r3 => some ([v], r3)
     | _ => none)
  | none => none

/-- The three mutually recursive JSON parsers (value, object members,
array elements), tied together with fuel.  Every recursive call sits
behind at least one consumed input character, so the fuel used in
`jsonParse` realises every successful parse. -/
def parseJsonFns : Nat →
    (Str → Option (JsonValue × Str)) ×
    (Str → Option (List (Str × JsonValue) × Str)) ×
    (Str → Option (List JsonValue × Str))
  | 0 => (fun _ => none, fun _ => none, fun _ => none)
  | fuel + 1 =>
    let prev := parseJsonFns fuel
    (parseJsonValueStep prev.2.1 prev.2.2,
     parseJsonMembersStep prev.1 prev.2.1,
     parseJsonElemsStep prev.1 prev.2.2)

/-- The JSON value parser. -/
def parseJsonValue (fuel : Nat) : Str → Option (JsonValue × Str) := (parseJsonFns fuel).1

/-- The JSON object-member list parser. -/
def parseJsonMembers (fuel : Nat) : Str → Option (List (Str × JsonValue) × Str) :=
  (parseJsonFns fuel).2.1

/-- The JSON array-element list parser. -/
def parseJsonElems (fuel : Nat) : Str → Option (List JsonValue × Str) :=
  (parseJsonFns fuel).2.2

/-- Model of `JSON.parse`: one value, with only trailing whitespace after
it.  Deviations from the ECMA-404/ECMAScript grammar are confined to
string escapes: `\u` escapes for surrogate halves are rejected (the
encoder never produces them and no judged property depends on them). -/
def jsonParse (s : Str) : Option JsonValue :=
  match parseJsonValue (2 * s.length + 2) s with
  | some (v, rest) => if skipWs rest = [] then some v else none
  | none => none

/-- Member lookup on a parsed object: as in `JSON.parse`, a duplicated key
keeps its last occurrence. -/
def jsonLookup (fields : List (Str × JsonValue)) (key : Str) : Option JsonValue :=
  match fields.reverse.find? (fun p => decide (p.1 = key)) with
  | some p => some p.2
  | none => none

/-- JS member access `data.key` on a parsed JSON value: `none` models
`undefined` (any non-object value, or an object without the key). -/
def jsonField : JsonValue → Str → Option JsonValue
  | JsonValue.jobj fields, key => jsonLookup fields key
  | _, _ => none

/-- UTF-8 encoding of one scalar value (model of `Buffer.from(s, 'utf-8')`). -/
def utf8EncodeChar (c : Char) : List Nat :=
  let n := c.toNat
  if n < 0x80 then [n]
  else if n < 0x800 then [0xC0 + n / 64, 0x80 + n % 64]
  else if n < 0x10000 then [0xE0 + n / 4096, 0x80 + n / 64 % 64, 0x80 + n % 64]
  else [0xF0 + n / 262144, 0x80 + n / 4096 % 64, 0x80 + n / 64 % 64, 0x80 + n % 64]

/-- UTF-8 encoding of a string. -/
def utf8Encode (s : Str) : List Nat := (s.map utf8EncodeChar).flatten

/-- Is `b` a UTF-8 continuation byte? -/
def isCont (b : Nat) : Bool := 0x80 ≤ b && b < 0xC0

/-- Decode one UTF-8 sequence from the head of the byte list, returning the
character and the remaining bytes. -/
def utf8DecodeOne (s : List Nat) : Option (Char × List Nat) :=
  match s with
  | [] => none
  | b :: rest =>
    if b < 0x80 then some (Char.ofNat b, rest)
    else if b < 0xC2 then none
    else if b < 0xE0 then
      match rest with
      | b2 :: rest2 =>
        if isCont b2 then some (Char.ofNat ((b - 0xC0) * 64 + (b2 - 0x80)), rest2)
        else none
      | [] => none
    else if b < 0xF0 then
      match rest with
      | b2 :: b3 :: rest2 =>
        if isCont b2 && isCont b3 then
          let v := (b - 0xE0) * 4096 + (b2 - 0x80) * 64 + (b3 - 0x80)
          if 0x800 ≤ v ∧ Nat.isValidChar v then some (Char.ofNat v, rest2)
          else none
        else none
      | _ => none
    else if b < 0xF5 then
      match rest with
      | b2 :: b3 :: b4 :: rest2 =>
        if isCont b2 && isCont b3 && isCont b4 then
          let v := (b - 0xF0) * 262144 + (b2 - 0x80) * 4096 + (b3 - 0x80) * 64 + (b4 - 0x80)
          if 0x10000 ≤ v ∧ v < 0x110000 then some (Char.ofNat v, rest2)
          else none
        else none
      | _ => none
    else none

/-- Iterate `utf8DecodeOne`, substituting U+FFFD for an invalid sequence
and resuming after its leading byte (`buffer.toString('utf-8')` is lossy
and never fails; the exact resynchronisation point after an error does not
affect any judged property).  Each step consumes at least one byte, so
fuel equal to the byte count realises the whole decode. -/
def utf8DecodeLoop : Nat → List Nat → Str
  | _, [] => []
  | 0, _ :: _ => []
  | fuel + 1, b :: rest =>
    match utf8DecodeOne (b :: rest) with
    | some (c, rest2) => c :: utf8DecodeLoop fuel rest2
    | none => Char.ofNat 0xFFFD :: utf8DecodeLoop fuel rest

/-- Model of `buffer.toString('utf-8')`: total, lossy UTF-8 decoding. -/
def utf8Decode (bs : List Nat) : Str := utf8DecodeLoop bs.length bs

/-- The standard base64 alphabet used by `Buffer.toString('base64')`. -/
def b64Alphabet : Str :=
  lit "ABCDEFGHIJKLMNOPQRSTUVWXYZabcdefghijklmnopqrstuvwxyz0123456789+/"

/-- Base64 digit for a 6-bit value. -/
def b64Char (n : Nat) : Char := b64Alphabet.getD (n % 64) '?'

/-- Model of `Buffer.prototype.toString('base64')`: standard padded
base64, three bytes to four digits. -/
def base64Encode : List Nat → Str
  | [] => []
  | [b1] => [b64Char (b1 / 4), b64Char (b1 % 4 * 16), '=', '=']
  | [b1, b2] => [b64Char (b1 / 4), b64Char (b1 % 4 * 16 + b2 / 16), b64Char (b2 % 16 * 4), '=']
  | b1 :: b2 :: b3 :: rest =>
    b64Char (b1 / 4) :: b64Char (b1 % 4 * 16 + b2 / 16) ::
    b64Char (b2 % 16 * 4 + b3 / 64) :: b64Char (b3 % 64) :: base64Encode rest

/-- 6-bit value of one base64 digit.  Both the standard and the URL-safe
alphabets are accepted, as by `Buffer.from(s, 'base64')`. -/
def b64DigitVal (c : Char) : Option Nat :=
  if 'A' ≤ c ∧ c ≤ 'Z' then some (c.toNat - 65)
  else if 'a' ≤ c ∧ c ≤ 'z' then some (c.toNat - 71)
  else if '0' ≤ c ∧ c ≤ '9' then some (c.toNat + 4)
  else if c = '+' ∨ c = '-' then some 62
  else if c = '/' ∨ c = '_' then some 63
  else none

/-- Lenient base64 decoding loop; `acc`/`bits` hold the pending high bits
of the next output byte.  Characters outside the two base64 alphabets
(whitespace, `=` padding, anything corrupt) carry no data and are skipped,
and a final partial group is dropped: `Buffer.from(payload, 'base64')`
never throws, and a corrupt payload surfaces later, as a JSON parse
failure on the decoded bytes. -/
def base64DecodeGo : Str → Nat → Nat → List Nat
  | [], _, _ => []
  | c :: rest, acc, bits =>
    match b64DigitVal c with
    | none => base64DecodeGo rest acc bits
    | some v =>
      if bits = 0 then base64DecodeGo rest v 6
      else if bits = 6 then (acc * 4 + v / 16) :: base64DecodeGo rest (v % 16) 4
      else if bits = 4 then (acc * 16 + v / 4) :: base64DecodeGo rest (v % 4) 2
      else (acc * 64 + v) :: base64DecodeGo rest 0 0

/-- Model of `Buffer.from(payload, 'base64')`: total, lenient decoding. -/
def base64Decode (s : Str) : List Nat := base64DecodeGo s 0 0

/-- The two supported diagram dialects. -/
inductive Dialect where
  | mermaid
  | plantuml
deriving DecidableEq

/-- The dialect tag string used by the source's union type. -/
def dialectStr : Dialect → Str
  | .mermaid => lit "mermaid"
  | .plantuml => lit "plantuml"

/-- The fixed marker tag of `encodeDiagramMarker`. -/
def markerTag : Str := lit "MDX_DIAGRAM:"

/-- Embedding of `encodeDiagramMarker`:
`'MDX_DIAGRAM:' + base64(utf8(JSON.stringify(type, code)))`. -/
def encodeDiagramMarker (d : Dialect) (code : Str) : Str :=
  markerTag ++ base64Encode (utf8Encode (jsonStringifyPair (dialectStr d) code))

/-- The source's two `typeof data.x === 'string'` field checks on the
parsed JSON value (its `!data` guard is subsumed: a parsed non-object has
no fields): the pair of the `type` and `code` strings, or `none` when
either field is missing or not a string. -/
def markerFields (v : JsonValue) : Option (Str × Str) :=
  match jsonField v (lit "type"), jsonField v (lit "code") with
  | some (JsonValue.jstr t), some (JsonValue.jstr c) => some (t, c)
  | _, _ => none

/-- The marker-decoding chain of `buildDiagramBlock` up to the extraction
of the `type` and `code` string fields: prefix check, `slice`, lenient
base64 decode, lossy UTF-8 decode, `JSON.parse`, then the field checks.
A parse failure (the source's `catch`) and a missing or non-string field
(its early return) are both `none`. -/
def decodeDiagramMarker (marker : Str) : Option (Str × Str) :=
  if startsWithLit markerTag marker then
    match jsonParse (utf8Decode (base64Decode (marker.drop 12))) with
    | none => none
    | some v => markerFields v
  else none

/-- The fenced code block string `buildDiagramBlock` splices in. -/
def fencedBlock (t c : Str) : Str :=
  lit "\n\n```" ++ t ++ lit "\n" ++ c ++ lit "\n```\n\n"

/-- Embedding of `buildDiagramBlock`: decode the marker, default a blank
`type` to `mermaid`, trim trailing whitespace from the code, and build the
fenced block; every failure yields the empty string. -/
def buildDiagramBlock (marker : Str) : Str :=
  match decodeDiagramMarker marker with
  | none => []
  | some (t, c) =>
    let ty := if trim t = [] then lit "mermaid" else trim t
    fencedBlock ty (trimEnd c)

end MdExt

namespace MdExt

/-! ## Block parser (`src/converters/markdown-docx-converter.ts`,
`parseMarkdownBlocks` and `parseMarkdownTableRow`). -/

/-- A character the JS regex `.` can match (anything but a line terminator). -/
def isDotChar (c : Char) : Bool :=
  ¬(c = '\n' ∨ c = '\r' ∨ c.toNat = 0x2028 ∨ c.toNat = 0x2029)

/-- Does `/^(#{1,6})\s+(.+)$/` match past the hashes?  `rest` is the line
with its leading hashes removed: the regex needs a nonempty whitespace run
followed by a nonempty `.`-matchable remainder (when the whole rest is
whitespace, backtracking leaves the final character for the `(.+)`). -/
def headingRestOk (rest : Str) : Bool :=
  match rest with
  | [] => false
  | c :: _ =>
    jsWhitespace c &&
      (let b0 := trimStart rest
       if b0.isEmpty then decide (rest.length ≥ 2) && isDotChar (rest.getLastD ' ')
       else b0.all isDotChar)

/-- The heading branch: on a match of `/^(#{1,6})\s+(.+)$/` the pushed
content is `match[2].trim()`, which equals the trim of everything after the
hashes. -/
def headingParse (line : Str) : Option (Nat × Str) :=
  let k := (line.takeWhile (· = '#')).length
  let rest := line.drop k
  if 1 ≤ k ∧ k ≤ 6 ∧ headingRestOk rest then some (k, trim rest) else none

/-- The horizontal-rule test `/^(-{3,}|\*{3,}|_{3,})$/` on the trimmed line. -/
def isHrLine (line : Str) : Bool :=
  let t := trim line
  match t with
  | c :: _ => (c = '-' ∨ c = '*' ∨ c = '_') && t.length ≥ 3 && t.all (· = c)
  | [] => false

/-- Strip `/^>\s?/` from a blockquote line. -/
def stripQuote (l : Str) : Str :=
  match l with
  | '>' :: c :: rest => if jsWhitespace c then rest else c :: rest
  | '>' :: [] => []
  | _ => l

/-- The unordered-list test `/^[-*+]\s/`. -/
def ulistTest (l : Str) : Bool :=
  match l with
  | a :: b :: _ => (a = '-' ∨ a = '*' ∨ a = '+') && jsWhitespace b
  | _ => false

/-- Strip `/^[-*+]\s/` (two characters) from a list item line. -/
def ulistStrip (l : Str) : Str := if ulistTest l then l.drop 2 else l

/-- Is `c` an ASCII digit (`\d`)? -/
def isDigitChar (c : Char) : Bool := '0' ≤ c && c ≤ '9'

/-- The ordered-list test `/^\d+\.\s/`. -/
def olistTest (l : Str) : Bool :=
  let ds := l.takeWhile isDigitChar
  decide (ds ≠ []) &&
    (match l.drop ds.length with
     | '.' :: c :: _ => jsWhitespace c
     | _ => false)

/-- Strip `/^\d+\.\s/` from an ordered list item line. -/
def olistStrip (l : Str) : Str :=
  if olistTest l then l.drop ((l.takeWhile isDigitChar).length + 2) else l

/-- Parse one `:?-{3,}:?` cell of the table separator row, returning the
rest of the input on success. -/
def sepCell (s : Str) : Option Str :=
  let s1 := match s with | ':' :: r => r | _ => s
  let ds := s1.takeWhile (· = '-')
  if ds.length ≥ 3 then
    let s2 := s1.drop ds.length
    some (match s2 with | ':' :: r => r | _ => s2)
  else none

/-- After one separator cell: `(?:\s*\|\s*:?-{3,}:?)*\s*\|?\s*$`,
deterministically (cells never start with `|` or whitespace).  Fuel bounds
the recursion; each step consumes at least the `|` it matched. -/
def sepTail : Nat → Str → Bool
  | fuel, s =>
    match trimStart s with
    | [] => true
    | '|' :: r =>
      (match trimStart r with
       | [] => true
       | r1 =>
         match sepCell r1 with
         | some rest =>
           match fuel with
           | 0 => false
           | f + 1 => sepTail f rest
         | none => false)
    | _ => false

/-- The table separator row pattern
`/^\s*\|?\s*:?-{3,}:?(?:\s*\|\s*:?-{3,}:?)*\s*\|?\s*$/` as a recognizer
(the source applies it to the already-trimmed line). -/
def tableSepTest (line : Str) : Bool :=
  let s := trimStart line
  let s1 := match s with | '|' :: r => trimStart r | _ => s
  match sepCell s1 with
  | some rest => sepTail line.length rest
  | none => false

/-- Generalisation of `splitNl` to any separator (model of `split('|')`). -/
def splitOnChar (sep : Char) (s : Str) : List Str :=
  match s with
  | [] => [[]]
  | c :: cs =>
    if c = sep then [] :: splitOnChar sep cs
    else match splitOnChar sep cs with
      | [] => [[c]]
      | l :: ls => (c :: l) :: ls

/-- Embedding of `parseMarkdownTableRow`: trim, strip one surrounding pipe
on each side, split on `|`, trim the cells. -/
def parseMarkdownTableRow (line : Str) : List Str :=
  let n := trim line
  let n1 := match n with | '|' :: r => r | _ => n
  let n2 := match n1.reverse with | '|' :: r => r.reverse | _ => n1
  (splitOnChar '|' n2).map trim

/-- The test `/@startuml[\s\S]*@enduml/.test(code)`: an occurrence of
`@startuml` with an occurrence of `@enduml` somewhere after it. -/
def hasUmlPair (s : Str) : Bool :=
  match s with
  | [] => false
  | _ :: rest =>
    (startsWithLit (lit "@startuml") s && containsSub (lit "@enduml") (s.drop 9)) ||
      hasUmlPair rest

/-- Leftmost match of the unanchored image pattern
`/!\[([^\]]*)\]\(([^)]+)\)/` at the current position. -/
def imageMatchAt (s : Str) : Option (Str × Str) :=
  match s with
  | '!' :: '[' :: rest =>
    let alt := rest.takeWhile (· ≠ ']')
    (match rest.drop alt.length with
     | ']' :: '(' :: rest2 =>
       let tgt := rest2.takeWhile (· ≠ ')')
       if tgt = [] then none
       else match rest2.drop tgt.length with
         | ')' :: _ => some (alt, tgt)
         | _ => none
     | _ => none)
  | _ => none

/-- Leftmost match of the image pattern anywhere in the line (the source's
`line.match(...)` is not anchored). -/
def imageFind : Str → Option (Str × Str)
  | [] => none
  | c :: rest =>
    match imageMatchAt (c :: rest) with
    | some r => some r
    | none => imageFind rest

/-- The paragraph-accumulation `while` condition of `parseMarkdownBlocks`. -/
def paraCond (l : Str) : Bool :=
  decide (trim l ≠ []) &&
  !startsWithLit (lit "#") l &&
  !startsWithLit (lit "```") l &&
  !startsWithLit (lit ">") l &&
  !ulistTest l && !olistTest l &&
  !containsChar '|' l &&
  !isHrLine l &&
  !startsWithLit (lit "![") l

/-- The paragraph-accumulation loop: push matching lines, breaking (after
the push) once more than 1000 lines have accumulated. -/
def paraLoop (acc : List Str) : List Str → List Str × List Str
  | [] => (acc, [])
  | l :: ls =>
    if paraCond l then
      let acc' := acc ++ [l]
      if acc'.length > 1000 then (acc', ls) else paraLoop acc' ls
    else (acc, l :: ls)

/-- The parsed block type (`MarkdownBlock` in the source, a tagged interface;
here the closed sum the spec's design notes call for). -/
inductive MarkdownBlock where
  | heading (level : Nat) (content : Str)
  | paragraph (content : Str)
  | codeBlock (content : Str) (language : Str)
  | diagram (diagramType : Dialect) (content : Str)
  | listBlock (items : List Str) (ordered : Bool)
  | tableBlock (rows : List (List Str))
  | blockquote (content : Str)
  | hr
  | image (alt : Str) (src : Str)
deriving DecidableEq

/-- The main `while` loop of `parseMarkdownBlocks`, one fuel unit per
iteration.  Every branch of the source loop consumes at least one line
except the paragraph branch when the current line itself fails the
accumulation condition: there the source loops forever (no `i++` on the
`continue` path), which the model reports as `none` (fuel exhaustion). -/
def blocksGo : Nat → List Str → Option (List MarkdownBlock)
  | 0, _ => none
  | _ + 1, [] => some []
  | fuel + 1, line :: rest =>
    match headingParse line with
    | some (k, content) => (MarkdownBlock.heading k content :: ·) <$> blocksGo fuel rest
    | none =>
    if isHrLine line then (MarkdownBlock.hr :: ·) <$> blocksGo fuel rest
    else if startsWithLit (lit "```") line then
      let language := toLowerAscii (trim (line.drop 3))
      let codeLines := rest.takeWhile (fun l => !startsWithLit (lit "```") l)
      let after := (rest.drop codeLines.length).drop 1
      let codeContent := joinSep (lit "\n") codeLines
      let isMermaid := language = lit "mermaid"
      let isPlantUml := language = lit "plantuml" ∨ language = lit "uml" ∨
        hasUmlPair codeContent = true
      let blk := if isMermaid then MarkdownBlock.diagram .mermaid codeContent
                 else if isPlantUml then MarkdownBlock.diagram .plantuml codeContent
                 else MarkdownBlock.codeBlock codeContent language
      (blk :: ·) <$> blocksGo fuel after
    else if startsWithLit (lit ">") line then
      let qs := (line :: rest).takeWhile (startsWithLit (lit ">"))
      let after := (line :: rest).drop qs.length
      (MarkdownBlock.blockquote (joinSep (lit "\n") (qs.map stripQuote)) :: ·) <$>
        blocksGo fuel after
    else if ulistTest line then
      let items := (line :: rest).takeWhile ulistTest
      let after := (line :: rest).drop items.length
      (MarkdownBlock.listBlock (items.map ulistStrip) false :: ·) <$> blocksGo fuel after
    else if olistTest line then
      let items := (line :: rest).takeWhile olistTest
      let after := (line :: rest).drop items.length
      (MarkdownBlock.listBlock (items.map olistStrip) true :: ·) <$> blocksGo fuel after
    else if containsChar '|' line &&
        (match rest with | next :: _ => tableSepTest (trim next) | [] => false) then
      let headerRow := parseMarkdownTableRow line
      let dataLines := (rest.drop 1).takeWhile (containsChar '|')
      let after := (rest.drop 1).drop dataLines.length
      let rows0 := if headerRow.length ≠ 0 then [headerRow] else []
      let rows := rows0 ++ (dataLines.map parseMarkdownTableRow).filter (fun r => r.length > 0)
      let res := if rows.length > 0 then [MarkdownBlock.tableBlock rows] else []
      (res ++ ·) <$> blocksGo fuel after
    else match imageFind line with
    | some (alt, src) => (MarkdownBlock.image alt src :: ·) <$> blocksGo fuel rest
    | none =>
      if trim line ≠ [] then
        let pr := paraLoop [] (line :: rest)
        let res := if pr.1.length > 0 then [MarkdownBlock.paragraph (joinSep (lit " ") pr.1)]
                   else []
        (res ++ ·) <$> blocksGo fuel pr.2
      else blocksGo fuel rest

/-- Embedding of `parseMarkdownBlocks`.  Fuel `lines.length + 1` suffices
for every terminating execution (each loop iteration consumes a line), so
`none` marks exactly the source's non-terminating inputs. -/
def parseMarkdownBlocks (content : Str) : Option (List MarkdownBlock) :=
  let lines := splitNl content
  blocksGo (lines.length + 1) lines

end MdExt

namespace MdExt

/-! ## Inline segment parser (`src/converters/markdown-docx/inline.ts`,
`parseInlineMarkdownSegments`), the single-alternation scan over
`/(\*\*[^*]+\*\*|\*[^*]+\*|`...`|\[...\](...))/g`. -/

/-- Does `s` end with `pat`? -/
def endsWithLit (pat s : Str) : Bool := startsWithLit pat.reverse s.reverse

/-- Model of `slice(a, -b)`. -/
def sliceDrop (a b : Nat) (s : Str) : Str := (s.drop a).take (s.length - a - b)

/-- The bold alternative `\*\*[^*]+\*\*` at the current position (the inner
character class cannot cross a `*`, so the greedy run is deterministic). -/
def tryBold (s : Str) : Option (Str × Str) :=
  match s with
  | '*' :: '*' :: r =>
    let run := r.takeWhile (· ≠ '*')
    if run = [] then none
    else match r.drop run.length with
      | '*' :: '*' :: rest => some ('*' :: '*' :: (run ++ ['*', '*']), rest)
      | _ => none
  | _ => none

/-- The italic alternative `\*[^*]+\*` at the current position. -/
def tryItalic (s : Str) : Option (Str × Str) :=
  match s with
  | '*' :: r =>
    let run := r.takeWhile (· ≠ '*')
    if run = [] then none
    else match r.drop run.length with
      | '*' :: rest => some ('*' :: (run ++ ['*']), rest)
      | _ => none
  | _ => none

/-- The inline-code alternative at the current position. -/
def tryCodeSpan (s : Str) : Option (Str × Str) :=
  match s with
  | '`' :: r =>
    let run := r.takeWhile (· ≠ '`')
    if run = [] then none
    else match r.drop run.length with
      | '`' :: rest => some ('`' :: (run ++ ['`']), rest)
      | _ => none
  | _ => none

/-- The link alternative `\[[^\]]+\]\([^)]+\)` at the current position. -/
def tryLink (s : Str) : Option (Str × Str) :=
  match s with
  | '[' :: r =>
    let t := r.takeWhile (· ≠ ']')
    if t = [] then none
    else match r.drop t.length with
      | ']' :: '(' :: r2 =>
        let h := r2.takeWhile (· ≠ ')')
        if h = [] then none
        else match r2.drop h.length with
          | ')' :: rest => some ('[' :: (t ++ [']', '('] ++ h ++ [')']), rest)
          | _ => none
      | _ => none
  | _ => none

/-- One attempt of the inline alternation at the current position,
alternatives in source order. -/
def inlineMatchAt (s : Str) : Option (Str × Str) :=
  match tryBold s with
  | some r => some r
  | none =>
    match tryItalic s with
    | some r => some r
    | none =>
      match tryCodeSpan s with
      | some r => some r
      | none => tryLink s

/-- One styled run (`InlineMarkdownSegment` in the source). -/
inductive InlineSegment where
  | text (t : Str)
  | bold (t : Str)
  | italic (t : Str)
  | codeSeg (t : Str)
  | link (t href : Str)
deriving DecidableEq

/-- The anchored re-parse `/^\[([^\]]+)\]\(([^)]+)\)$/` of a matched link. -/
def linkReparse (m : Str) : Option (Str × Str) :=
  match m with
  | '[' :: r =>
    let t := r.takeWhile (· ≠ ']')
    if t = [] then none
    else match r.drop t.length with
      | ']' :: '(' :: r2 =>
        let h := r2.takeWhile (· ≠ ')')
        if h = [] then none
        else match r2.drop h.length with
          | [')'] => some (t, h)
          | _ => none
      | _ => none
  | _ => none

/-- The source's classification of a matched substring by its delimiters. -/
def classifySegment (matched : Str) : Option InlineSegment :=
  if startsWithLit (lit "**") matched ∧ endsWithLit (lit "**") matched then
    some (.bold (sliceDrop 2 2 matched))
  else if startsWithLit (lit "*") matched ∧ endsWithLit (lit "*") matched then
    some (.italic (sliceDrop 1 1 matched))
  else if startsWithLit (lit "`") matched ∧ endsWithLit (lit "`") matched then
    some (.codeSeg (sliceDrop 1 1 matched))
  else if startsWithLit (lit "[") matched then
    match linkReparse matched with
    | some (t, h) => some (.link t h)
    | none => none
  else none

/-- The `exec` loop: `pending` holds (reversed) plain characters since the
last match; every match of at least three characters flushes them as one
plain segment.  Fuel `s.length` suffices since each step consumes at least
one character. -/
def inlineScan : Nat → Str → Str → List InlineSegment
  | 0, pending, s =>
    if (pending.reverse ++ s) = [] then [] else [.text (pending.reverse ++ s)]
  | fuel + 1, pending, s =>
    match s with
    | [] => if pending = [] then [] else [.text pending.reverse]
    | c :: rest =>
      match inlineMatchAt s with
      | some (matched, after) =>
        (if pending = [] then [] else [InlineSegment.text pending.reverse]) ++
        (match classifySegment matched with
         | some seg => [seg]
         | none => []) ++ inlineScan fuel [] after
      | none => inlineScan fuel (c :: pending) rest

/-- Embedding of `parseInlineMarkdownSegments`. -/
def parseInlineMarkdownSegments (text : Str) : List InlineSegment :=
  if text = [] then [.text []]
  else
    let segs := inlineScan text.length [] text
    if segs = [] then [.text text] else segs

end MdExt

namespace MdExt

/-! ## Document assembler (`src/converters/markdown-docx-converter.ts`,
`markdownToDocx`).  The `docx` library objects are modelled by a sum of the
element shapes the converter builds; the puppeteer renderer and the file
system are oracles supplied as arguments. -/

/-- A paragraph child built by `processInlineMarkdown`. -/
inductive DocxRun where
  | text (t : Str)
  | bold (t : Str)
  | italic (t : Str)
  | codeFont (t : Str)
  | hyperlink (t href : Str)
deriving DecidableEq

/-- Embedding of `processInlineMarkdown`. -/
def processInlineMarkdown (text : Str) : List DocxRun :=
  let runs := (parseInlineMarkdownSegments text).map fun seg =>
    match seg with
    | .text t => DocxRun.text t
    | .bold t => DocxRun.bold t
    | .italic t => DocxRun.italic t
    | .codeSeg t => DocxRun.codeFont t
    | .link t href => DocxRun.hyperlink t href
  if runs = [] then [.text []] else runs

/-- Embedding of `getHeadingLevel` (`undefined` is `none`). -/
def getHeadingLevel (level : Nat) : Option Nat :=
  if 1 ≤ level ∧ level ≤ 6 then some level else none

/-- The rendering result of `renderDiagramToPngBuffer` (raw PNG bytes and
device-pixel dimensions). -/
structure DiagramImage where
  data : List Nat
  width : Nat
  height : Nat
deriving DecidableEq

/-- Oracle for `renderDiagramToPngBuffer`: `Except.error` models a thrown
exception, `Except.ok none` the renderer's own failure result. -/
abbrev DiagramRenderer := Dialect → Str → Except Unit (Option DiagramImage)

/-- Oracle for the file system: `fileExists` models `fs.existsSync`;
`readFile` returning `none` models `fs.readFileSync` throwing. -/
structure FsOracle where
  fileExists : Str → Bool
  readFile : Str → Option (List Nat)

/-- POSIX model of `path.isAbsolute`. -/
def pathIsAbsolute (p : Str) : Bool := startsWithLit (lit "/") p

/-- POSIX model of `path.join` as used with a directory and a relative path. -/
def pathJoin (base p : Str) : Str := base ++ lit "/" ++ p

/-- One assembled element (paragraph, table, image run, hidden marker run). -/
inductive DocxElement where
  | paragraph (runs : List DocxRun) (headingLevel : Option Nat)
  | codeParagraph (text : Str)
  | diagramImage (marker : Str) (width height : Nat)
  | hiddenMarker (marker : Str)
  | blockquoteP (runs : List DocxRun)
  | listItem (bullet : Str) (runs : List DocxRun)
  | tableEl (rows : List (List (List DocxRun)))
  | hrParagraph
  | imageEl (data : List Nat) (width height : Nat)
  | imagePlaceholder (text : Str)
deriving DecidableEq

/-- The elements `markdownToDocx` pushes for one block (each `case` of its
`switch`).  The diagram case tries the renderer once when rendering is
enabled and the block has content; on a successful image it pushes the
centered image (alt-text description = marker) followed by the hidden
marker paragraph; on `null` or a throw it falls through to the literal
code-style paragraph. -/
def assembleBlock (canRenderDiagrams : Bool) (render : DiagramRenderer) (fs : FsOracle)
    (baseDir : Str) : MarkdownBlock → List DocxElement
  | .heading level content =>
    [.paragraph (processInlineMarkdown content) (getHeadingLevel level)]
  | .paragraph content => [.paragraph (processInlineMarkdown content) none]
  | .codeBlock content _language => [.codeParagraph content]
  | .diagram dt content =>
    if canRenderDiagrams ∧ content ≠ [] then
      match render dt content with
      | .ok (some img) =>
        let marker := encodeDiagramMarker dt content
        let scaled := scaleToMaxWidth img.width img.height 600
        [.diagramImage marker scaled.1 scaled.2, .hiddenMarker marker]
      | .ok none => [.codeParagraph content]
      | .error _ => [.codeParagraph content]
    else [.codeParagraph content]
  | .blockquote content => [.blockquoteP (processInlineMarkdown content)]
  | .listBlock items ordered =>
    items.enum.map fun p =>
      .listItem (if ordered then lit (Nat.repr (p.1 + 1)) ++ lit ". " else lit "• ")
        (processInlineMarkdown p.2)
  | .tableBlock rows =>
    if rows.length > 0 then
      [.tableEl (rows.map fun row => row.map processInlineMarkdown)]
    else []
  | .hr => [.hrParagraph]
  | .image alt src =>
    if src ≠ [] then
      let imagePath := if pathIsAbsolute src then src else pathJoin baseDir src
      if fs.fileExists imagePath then
        match fs.readFile imagePath with
        | some buf =>
          let dims := (getImageDimensions buf).getD (400, 300)
          let scaled := scaleToMaxWidth dims.1 dims.2 600
          [.imageEl buf scaled.1 scaled.2]
        | none =>
          [.imagePlaceholder (lit "[Image: " ++ (if alt ≠ [] then alt else src) ++ lit "]")]
      else
        [.imagePlaceholder (lit "[Image: " ++ (if alt ≠ [] then alt else src) ++ lit "]")]
    else []

/-- Embedding of the element-assembly part of `markdownToDocx`:
`chromeAvailable` models `findChromePath()` succeeding; the source sets
`canRenderDiagrams` to `hasDiagrams`, then clears it when no browser can be
launched.  `none` propagates the parser's non-termination. -/
def markdownToDocxElements (chromeAvailable : Bool) (render : DiagramRenderer)
    (fs : FsOracle) (baseDir : Str) (content : Str) : Option (List DocxElement) :=
  (parseMarkdownBlocks content).map fun blocks =>
    let hasDiagrams := blocks.any fun b =>
      match b with
      | .diagram _ c => !c.isEmpty
      | _ => false
    let canRender := hasDiagrams && chromeAvailable
    (blocks.map (assembleBlock canRender render fs baseDir)).flatten

end MdExt

namespace MdExt

/-! ## Reverse assembler (`htmlToMarkdown` in `src/docx-converter.ts` and, with
diagram-marker extraction and restoration, in
`src/converters/markdown-docx/inline.ts`).  Each `String.replace(regex, ...)`
call is modelled by a left-to-right, non-overlapping global scan with a
deterministic matcher for that regex (the character classes involved cannot
cross their own delimiters, so greedy runs are deterministic; the attribute
patterns backtrack over the position of their `href=`/`src=`/`alt=` literal,
modelled by trying candidate positions from the rightmost). -/

/-- ASCII lower-casing of one character (for the regex `i` flag). -/
def lowerChar (c : Char) : Char :=
  if 'A' ≤ c && c ≤ 'Z' then Char.ofNat (c.toNat + 32) else c

/-- Case-insensitive (ASCII) literal prefix test. -/
def ciStartsWith : Str → Str → Bool
  | [], _ => true
  | _ :: _, [] => false
  | p :: ps, c :: cs => lowerChar p == lowerChar c && ciStartsWith ps cs

/-- Global-replace driver: at each position try the matcher; on a match
emit its replacement and continue after the matched text, otherwise move
one character right.  Every matcher below consumes at least one character,
so fuel `s.length` realises the full scan. -/
def replaceScan (m : Str → Option (Nat × Str)) : Nat → Str → Str
  | 0, s => s
  | _ + 1, [] => []
  | fuel + 1, c :: rest =>
    match m (c :: rest) with
    | some (n + 1, repl) => repl ++ replaceScan m fuel ((c :: rest).drop (n + 1))
    | _ => c :: replaceScan m fuel rest

/-- Model of `String.prototype.replace` with a global regex. -/
def replaceAll (m : Str → Option (Nat × Str)) (s : Str) : Str :=
  replaceScan m s.length s

/-- Matcher for a case-sensitive literal (the entity and token replaces). -/
def litTry (pat repl : Str) (s : Str) : Option (Nat × Str) :=
  if startsWithLit pat s then some (pat.length, repl) else none

/-- Matcher for a case-insensitive literal (`</ul>`, `</ol>`). -/
def litTryCI (pat repl : Str) (s : Str) : Option (Nat × Str) :=
  if ciStartsWith pat s then some (pat.length, repl) else none

/-- Match `<tag[^>]*>` at the current position, returning the rest. -/
def tagOpenAt (tag : Str) (s : Str) : Option Str :=
  if ciStartsWith ('<' :: tag) s then
    let r := s.drop (tag.length + 1)
    let attrs := r.takeWhile (· ≠ '>')
    match r.drop attrs.length with
    | '>' :: rest => some rest
    | _ => none
  else none

/-- Matcher for `<tag[^>]*>` replaced by a constant (`<ul>`, `<ol>`). -/
def tagOpenTry (tag repl : Str) (s : Str) : Option (Nat × Str) :=
  match tagOpenAt tag s with
  | some rest => some (s.length - rest.length, repl)
  | none => none

/-- Lazy `(.*?)` scan up to a case-insensitive closing literal; `.` cannot
match a line terminator, so content stops at one. -/
def lazyUntil (close : Str) : Str → Option (Str × Str)
  | [] => if close = [] then some ([], []) else none
  | c :: rest =>
    if ciStartsWith close (c :: rest) then some ([], (c :: rest).drop close.length)
    else if isDotChar c then (fun p => (c :: p.1, p.2)) <$> lazyUntil close rest
    else none

/-- Matcher for `<tag[^>]*>(.*?)</tag>` replaced by `pre ++ $1 ++ post`
(headings, emphasis, `li`, `p`, `blockquote`, `code`, `pre`). -/
def tagWrapTry (tag pre post : Str) (s : Str) : Option (Nat × Str) :=
  match tagOpenAt tag s with
  | none => none
  | some rest =>
    match lazyUntil ('<' :: '/' :: (tag ++ ['>'])) rest with
    | none => none
    | some (content, rem) => some (s.length - rem.length, pre ++ content ++ post)

/-- Continuation of the link pattern after a chosen `href="` position:
`([^"]*)"` then `[^>]*>` then `(.*?)</a>`. -/
def linkTagCont (r : Str) (p : Nat) : Option (Str × Str × Str) :=
  let afterHref := r.drop (p + 6)
  let h := afterHref.takeWhile (· ≠ '"')
  match afterHref.drop h.length with
  | '"' :: r2 =>
    let attrs2 := r2.takeWhile (· ≠ '>')
    (match r2.drop attrs2.length with
     | '>' :: r3 =>
       match lazyUntil (lit "</a>") r3 with
       | some (content, rem) => some (h, content, rem)
       | none => none
     | _ => none)
  | _ => none

/-- Try the `href="` candidate positions in backtracking order. -/
def linkTagSearch (r : Str) : List Nat → Option (Str × Str × Str)
  | [] => none
  | p :: ps =>
    match linkTagCont r p with
    | some x => some x
    | none => linkTagSearch r ps

/-- Matcher for `<a[^>]*href="([^"]*)"[^>]*>(.*?)</a>` replaced by
`[$2]($1)`. -/
def linkTagTry (s : Str) : Option (Nat × Str) :=
  if ciStartsWith (lit "<a") s then
    let r := s.drop 2
    let attrs := r.takeWhile (· ≠ '>')
    let cands := ((List.range (attrs.length + 1)).filter
      (fun p => ciStartsWith (lit "href=\"") (r.drop p))).reverse
    match linkTagSearch r cands with
    | some (h, content, rem) =>
      some (s.length - rem.length, '[' :: (content ++ [']', '('] ++ h ++ [')']))
    | none => none
  else none

/-- Parse `src="([^"]*)"` after a chosen `src=` position. -/
def imgSrcCont (r : Str) (p : Nat) : Option (Str × Str) :=
  let a := r.drop (p + 5)
  let v := a.takeWhile (· ≠ '"')
  match a.drop v.length with
  | '"' :: r2 => some (v, r2)
  | _ => none

/-- Parse the closing `[^>]*\/?>` of an `img` tag (the optional slash is
absorbed by the greedy attribute run). -/
def imgCloseAfter (r3 : Str) : Option Str :=
  let attrs := r3.takeWhile (· ≠ '>')
  match r3.drop attrs.length with
  | '>' :: rem => some rem
  | _ => none

/-- Try the `alt="` candidate positions of the two-attribute image pattern. -/
def imgAltValSearch (r2 : Str) : List Nat → Option (Str × Str)
  | [] => none
  | q :: qs =>
    let a := r2.drop (q + 5)
    let v := a.takeWhile (· ≠ '"')
    match a.drop v.length with
    | '"' :: r3 =>
      (match imgCloseAfter r3 with
       | some rem => some (v, rem)
       | none => imgAltValSearch r2 qs)
    | _ => imgAltValSearch r2 qs

/-- Try the `src="` candidate positions of the two-attribute image pattern. -/
def imgSrcAltSearch (r : Str) : List Nat → Option (Str × Str × Str)
  | [] => none
  | p :: ps =>
    match imgSrcCont r p with
    | some (src, r2) =>
      let attrs2 := r2.takeWhile (· ≠ '>')
      let cands2 := ((List.range (attrs2.length + 1)).filter
        (fun q => ciStartsWith (lit "alt=\"") (r2.drop q))).reverse
      (match imgAltValSearch r2 cands2 with
       | some (alt, rem) => some (src, alt, rem)
       | none => imgSrcAltSearch r ps)
    | none => imgSrcAltSearch r ps

/-- Matcher for `<img[^>]*src="([^"]*)"[^>]*alt="([^"]*)"[^>]*\/?>` replaced
by `![$2]($1)`. -/
def imgSrcAltTry (s : Str) : Option (Nat × Str) :=
  if ciStartsWith (lit "<img") s then
    let r := s.drop 4
    let attrs := r.takeWhile (· ≠ '>')
    let cands := ((List.range (attrs.length + 1)).filter
      (fun p => ciStartsWith (lit "src=\"") (r.drop p))).reverse
    match imgSrcAltSearch r cands with
    | some (src, alt, rem) =>
      some (s.length - rem.length, '!' :: '[' :: (alt ++ [']', '('] ++ src ++ [')']))
    | none => none
  else none

/-- Try the `src="` candidates of the one-attribute image pattern. -/
def imgSrcSearch (r : Str) : List Nat → Option (Str × Str)
  | [] => none
  | p :: ps =>
    match imgSrcCont r p with
    | some (src, r2) =>
      (match imgCloseAfter r2 with
       | some rem => some (src, rem)
       | none => imgSrcSearch r ps)
    | none => imgSrcSearch r ps

/-- Matcher for `<img[^>]*src="([^"]*)"[^>]*\/?>` replaced by `![]($1)`. -/
def imgSrcTry (s : Str) : Option (Nat × Str) :=
  if ciStartsWith (lit "<img") s then
    let r := s.drop 4
    let attrs := r.takeWhile (· ≠ '>')
    let cands := ((List.range (attrs.length + 1)).filter
      (fun p => ciStartsWith (lit "src=\"") (r.drop p))).reverse
    match imgSrcSearch r cands with
    | some (src, rem) => some (s.length - rem.length, lit "![](" ++ src ++ lit ")")
    | none => none
  else none

/-- Matcher for `<br\s*\/?>` replaced by a newline. -/
def brTry (s : Str) : Option (Nat × Str) :=
  if ciStartsWith (lit "<br") s then
    let r := s.drop 3
    let w := r.takeWhile jsWhitespace
    (match r.drop w.length with
     | '/' :: '>' :: _ => some (3 + w.length + 2, lit "\n")
     | '>' :: _ => some (3 + w.length + 1, lit "\n")
     | _ => none)
  else none

/-- Matcher for the tag-stripping pass `<[^>]+>`. -/
def stripTagTry (s : Str) : Option (Nat × Str) :=
  match s with
  | '<' :: r =>
    let run := r.takeWhile (· ≠ '>')
    if run = [] then none
    else match r.drop run.length with
      | '>' :: _ => some (run.length + 2, [])
      | _ => none
  | _ => none

end MdExt

namespace MdExt

/-- One pass of the newline cleanup `/\n{3,}/g → '\n\n'`: a run of three
or more newlines is replaced (greedily, the whole run) by exactly two;
elsewhere the scan advances one character.  Fuel bounds the recursion;
each step consumes at least one character. -/
def collapseGo : Nat → Str → Str
  | 0, s => s
  | _ + 1, [] => []
  | fuel + 1, c :: rest =>
    if c = '\n' ∧ startsWithLit ['\n', '\n'] rest = true then
      '\n' :: '\n' :: collapseGo fuel (rest.dropWhile (· = '\n'))
    else c :: collapseGo fuel rest

/-- The newline cleanup `/\n{3,}/g → '\n\n'`. -/
def collapseNewlines (s : Str) : Str := collapseGo s.length s

/-- The shared tag-substitution and entity-decoding chain of
`htmlToMarkdown`, stage for stage in source order. -/
def applyTagStages (html : Str) : Str :=
  let md := replaceAll (tagWrapTry (lit "h1") (lit "# ") (lit "\n\n")) html
  let md := replaceAll (tagWrapTry (lit "h2") (lit "## ") (lit "\n\n")) md
  let md := replaceAll (tagWrapTry (lit "h3") (lit "### ") (lit "\n\n")) md
  let md := replaceAll (tagWrapTry (lit "h4") (lit "#### ") (lit "\n\n")) md
  let md := replaceAll (tagWrapTry (lit "h5") (lit "##### ") (lit "\n\n")) md
  let md := replaceAll (tagWrapTry (lit "h6") (lit "###### ") (lit "\n\n")) md
  let md := replaceAll (tagWrapTry (lit "strong") (lit "**") (lit "**")) md
  let md := replaceAll (tagWrapTry (lit "b") (lit "**") (lit "**")) md
  let md := replaceAll (tagWrapTry (lit "em") (lit "*") (lit "*")) md
  let md := replaceAll (tagWrapTry (lit "i") (lit "*") (lit "*")) md
  let md := replaceAll linkTagTry md
  let md := replaceAll imgSrcAltTry md
  let md := replaceAll imgSrcTry md
  let md := replaceAll (tagOpenTry (lit "ul") (lit "\n")) md
  let md := replaceAll (litTryCI (lit "</ul>") (lit "\n")) md
  let md := replaceAll (tagOpenTry (lit "ol") (lit "\n")) md
  let md := replaceAll (litTryCI (lit "</ol>") (lit "\n")) md
  let md := replaceAll (tagWrapTry (lit "li") (lit "- ") (lit "\n")) md
  let md := replaceAll (tagWrapTry (lit "p") (lit "") (lit "\n\n")) md
  let md := replaceAll brTry md
  let md := replaceAll (tagWrapTry (lit "blockquote") (lit "> ") (lit "\n\n")) md
  let md := replaceAll (tagWrapTry (lit "code") (lit "`") (lit "`")) md
  let md := replaceAll (tagWrapTry (lit "pre") (lit "```\n") (lit "\n```\n\n")) md
  let md := replaceAll stripTagTry md
  let md := replaceAll (litTry (lit "&amp;") (lit "&")) md
  let md := replaceAll (litTry (lit "&lt;") (lit "<")) md
  let md := replaceAll (litTry (lit "&gt;") (lit ">")) md
  let md := replaceAll (litTry (lit "&quot;") (lit "\"")) md
  let md := replaceAll (litTry (lit "&#39;") ['\'']) md
  let md := replaceAll (litTry (lit "&nbsp;") (lit " ")) md
  md

/-- Embedding of the `htmlToMarkdown` of `src/docx-converter.ts` (no
diagram handling): substitutions, entity decoding, newline collapse, trim. -/
def htmlToMarkdownDocx (html : Str) : Str :=
  trim (collapseNewlines (applyTagStages html))

/-- The placeholder token `__MDX_DIAGRAM_BLOCK_{n}__` of
`storeDiagramBlock`. -/
def tokenStr (n : Nat) : Str :=
  lit "__MDX_DIAGRAM_BLOCK_" ++ lit (Nat.repr n) ++ lit "__"

/-- Embedding of `storeDiagramBlock`: build the fenced block; on failure
substitute the empty string and store nothing, otherwise store the block
and substitute its token. -/
def storeDiagramBlock (blocks : List Str) (marker : Str) : Str × List Str :=
  let block := buildDiagramBlock marker
  if block = [] then ([], blocks)
  else (tokenStr blocks.length, blocks ++ [block])

/-- Global-replace driver for the two marker-extraction passes, threading
the `diagramBlocks` accumulator through `storeDiagramBlock`. -/
def extractScan (m : Str → Option (Nat × Str)) : Nat → List Str → Str → Str × List Str
  | 0, blocks, s => (s, blocks)
  | _ + 1, blocks, [] => ([], blocks)
  | fuel + 1, blocks, c :: rest =>
    match m (c :: rest) with
    | some (n + 1, marker) =>
      let st := storeDiagramBlock blocks marker
      let cont := extractScan m fuel st.2 ((c :: rest).drop (n + 1))
      (st.1 ++ cont.1, cont.2)
    | _ =>
      let cont := extractScan m fuel blocks rest
      (c :: cont.1, cont.2)

/-- Continuation of the marker-image pattern after a chosen `alt=` position:
`['"](MDX_DIAGRAM:[^'"]+)['"]` then `[^>]*>`.  The whole regex carries the
`i` flag, so the marker prefix matches case-insensitively; the capture is
the source text. -/
def imgAltCont (r : Str) (p : Nat) : Option (Str × Str) :=
  match r.drop (p + 4) with
  | q :: a2 =>
    if (q = '"' ∨ q = '\'') ∧ ciStartsWith (lit "MDX_DIAGRAM:") a2 then
      let body := (a2.drop 12).takeWhile (fun c => !(c = '"' ∨ c = '\''))
      if body = [] then none
      else
        match a2.drop (12 + body.length) with
        | q2 :: r3 =>
          if q2 = '"' ∨ q2 = '\'' then
            let attrs2 := r3.takeWhile (· ≠ '>')
            match r3.drop attrs2.length with
            | '>' :: rem => some (a2.take (12 + body.length), rem)
            | _ => none
          else none
        | [] => none
    else none
  | [] => none

/-- Try the `alt=` candidate positions of the marker-image pattern. -/
def imgAltSearch (r : Str) : List Nat → Option (Str × Str)
  | [] => none
  | p :: ps =>
    match imgAltCont r p with
    | some x => some x
    | none => imgAltSearch r ps

/-- Matcher for `<img[^>]*alt=['"](MDX_DIAGRAM:[^'"]+)['"][^>]*>`, yielding
the captured marker. -/
def imgAltMatch (s : Str) : Option (Nat × Str) :=
  if ciStartsWith (lit "<img") s then
    let r := s.drop 4
    let attrs := r.takeWhile (· ≠ '>')
    let cands := ((List.range (attrs.length + 1)).filter
      (fun p => ciStartsWith (lit "alt=") (r.drop p))).reverse
    match imgAltSearch r cands with
    | some (marker, rem) => some (s.length - rem.length, marker)
    | none => none
  else none

/-- A character of the hidden-marker scanning class `[A-Za-z0-9+/=]`. -/
def isB64ScanChar (c : Char) : Bool :=
  ('A' ≤ c && c ≤ 'Z') || ('a' ≤ c && c ≤ 'z') || ('0' ≤ c && c ≤ '9') ||
  c = '+' || c = '/' || c = '='

/-- Matcher for the hidden-text pattern `MDX_DIAGRAM:[A-Za-z0-9+/=]+`
(case-sensitive: this replace has no `i` flag). -/
def hiddenMarkerMatch (s : Str) : Option (Nat × Str) :=
  if startsWithLit (lit "MDX_DIAGRAM:") s then
    let body := (s.drop 12).takeWhile isB64ScanChar
    if body = [] then none
    else some (12 + body.length, s.take (12 + body.length))
  else none

/-- The two marker-extraction passes of the inline.ts `htmlToMarkdown`:
image alt text first, then hidden text runs. -/
def extractDiagramMarkers (html : Str) : Str × List Str :=
  let st1 := extractScan imgAltMatch html.length [] html
  extractScan hiddenMarkerMatch st1.1.length st1.2 st1.1

/-- The final `diagramBlocks.forEach` of the inline.ts `htmlToMarkdown`:
replace each token by its stored block.  The source passes the block as a
`String.replace` replacement string, where a `$` would start a replacement
pattern (`$&`, `$$`, ...); the model substitutes literally, so it is
faithful only for blocks whose decoded code avoids such `$` sequences
(none of the judged theorems' inputs contains one). -/
def restoreBlocks (md : Str) (blocks : List Str) : Str :=
  blocks.enum.foldl (fun acc p => replaceAll (litTry (tokenStr p.1) p.2) acc) md

/-- Embedding of the `htmlToMarkdown` of
`src/converters/markdown-docx/inline.ts`: extract markers, run the shared
substitution chain, collapse newlines, trim, then restore the stored
fenced blocks. -/
def htmlToMarkdown (html : Str) : Str :=
  let ex := extractDiagramMarkers html
  restoreBlocks (trim (collapseNewlines (applyTagStages ex.1))) ex.2

end MdExt

namespace MdExt

/-! ## Lemmas and claim theorems -/

lemma encode64_mem (n : Nat) : encode64 n ∈ plantUmlAlphabet := by
  have h : ∀ m, m < 64 → plantUmlAlphabet.getD m '?' ∈ plantUmlAlphabet := by decide
  exact h (n % 64) (Nat.mod_lt _ (by norm_num))

lemma encodePlantUmlChunk_mem (b1 b2 b3 : Nat) :
    ∀ c ∈ encodePlantUmlChunk b1 b2 b3, c ∈ plantUmlAlphabet := by
  intro c hc
  simp only [encodePlantUmlChunk, List.mem_cons, List.mem_singleton] at hc
  rcases hc with h | h | h | h | h <;> first
    | (subst h; exact encode64_mem _)
    | exact absurd h (by simp)

/-- C4: the PlantUML 6-bit packing maps every 3 input bytes (zero-padded at
the end) to 4 output characters, so for any DEFLATE output `b` the encoded
path has length `4 * ceil(len b / 3)` and draws all its characters from the
64-character PlantUML alphabet. -/
theorem encodePlantUml_pack_spec : ∀ b : List Nat,
    (encodePlantUmlPack b).length = 4 * ((b.length + 2) / 3) ∧
    ∀ c ∈ encodePlantUmlPack b, c ∈ plantUmlAlphabet
  | [] => by constructor
             · simp [encodePlantUmlPack]
             · intro c hc; simp [encodePlantUmlPack] at hc
  | [b1] => by
      refine ⟨by simp [encodePlantUmlPack, encodePlantUmlChunk], ?_⟩
      simpa [encodePlantUmlPack] using encodePlantUmlChunk_mem b1 0 0
  | [b1, b2] => by
      refine ⟨by simp [encodePlantUmlPack, encodePlantUmlChunk], ?_⟩
      simpa [encodePlantUmlPack] using encodePlantUmlChunk_mem b1 b2 0
  | b1 :: b2 :: b3 :: rest => by
      obtain ⟨ih1, ih2⟩ := encodePlantUml_pack_spec rest
      constructor
      · simp [encodePlantUmlPack, encodePlantUmlChunk, ih1]
        omega
      · intro c hc
        simp only [encodePlantUmlPack, List.mem_append] at hc
        rcases hc with h | h
        · exact encodePlantUmlChunk_mem b1 b2 b3 c h
        · exact ih2 c h

/-- C4 witness: the packing of the four bytes `[1, 2, 3, 4]`. -/
theorem encodePlantUml_pack_spec_witness :
    (encodePlantUmlPack [1, 2, 3, 4]).length = 8 ∧ '0' ∈ plantUmlAlphabet :=
  ⟨by simpa using (encodePlantUml_pack_spec [1, 2, 3, 4]).1,
   (encodePlantUml_pack_spec [1, 2, 3, 4]).2 '0' (by decide)⟩

/-- C8 (amended): the probe returns `none` for every buffer shorter than 24
bytes; for a buffer of 24 bytes or more it reports the PNG header fields
exactly when the first FOUR bytes are `0x89 'P' 'N' 'G'` (the source never
checks signature bytes 4–7), and returns `none` when the buffer is neither
4-byte-PNG-signed nor starts with the JPEG SOI marker. -/
theorem getImageDimensions_spec (buf : List Nat) :
    (buf.length < 24 → getImageDimensions buf = none) ∧
    (24 ≤ buf.length →
      buf.getD 0 0 = 0x89 ∧ buf.getD 1 0 = 0x50 ∧ buf.getD 2 0 = 0x4e ∧ buf.getD 3 0 = 0x47 →
      getImageDimensions buf = some (readUInt32BE buf 16, readUInt32BE buf 20)) ∧
    (24 ≤ buf.length →
      ¬(buf.getD 0 0 = 0x89 ∧ buf.getD 1 0 = 0x50 ∧ buf.getD 2 0 = 0x4e ∧ buf.getD 3 0 = 0x47) →
      ¬(buf.getD 0 0 = 0xff ∧ buf.getD 1 0 = 0xd8) →
      getImageDimensions buf = none) := by
  refine ⟨fun h => ?_, fun h hp => ?_, fun h hp hj => ?_⟩
  · unfold getImageDimensions
    rw [if_pos h]
  · unfold getImageDimensions
    rw [if_neg (by omega), if_pos hp]
  · unfold getImageDimensions
    rw [if_neg (by omega), if_neg hp, if_neg hj]

/-- C8 witness: a 24-byte buffer with the full 8-byte PNG signature and
IHDR width 320, height 180, and a 10-byte buffer probing to `none`. -/
theorem getImageDimensions_spec_witness :
    getImageDimensions [0x89, 0x50, 0x4e, 0x47, 0x0d, 0x0a, 0x1a, 0x0a,
      0, 0, 0, 13, 73, 72, 68, 82, 0, 0, 1, 64, 0, 0, 0, 180] = some (320, 180) ∧
    getImageDimensions [1, 2, 3, 4, 5, 6, 7, 8, 9, 10] = none := by
  constructor
  · have h := (getImageDimensions_spec [0x89, 0x50, 0x4e, 0x47, 0x0d, 0x0a, 0x1a, 0x0a,
      0, 0, 0, 13, 73, 72, 68, 82, 0, 0, 1, 64, 0, 0, 0, 180]).2.1 (by decide) (by decide)
    rw [h]; decide
  · exact (getImageDimensions_spec [1, 2, 3, 4, 5, 6, 7, 8, 9, 10]).1 (by decide)

/-- C8 counterexample: a 24-byte buffer carrying only the first four PNG
signature bytes (bytes 4–7 are zero, so the full 8-byte signature is
absent) still probes to PNG dimensions instead of `none`. -/
theorem getImageDimensions_partial_signature :
    getImageDimensions [0x89, 0x50, 0x4e, 0x47, 0, 0, 0, 0, 0, 0, 0, 0,
      0, 0, 0, 0, 0, 0, 1, 64, 0, 0, 0, 180] = some (320, 180) ∧
    [0x89, 0x50, 0x4e, 0x47, 0, 0, 0, 0, 0, 0, 0, 0,
      0, 0, 0, 0, 0, 0, 1, 64, 0, 0, 0, 180].take 8 ≠
      [0x89, 0x50, 0x4e, 0x47, 0x0d, 0x0a, 0x1a, 0x0a] := by
  constructor <;> decide

/-- C7: the four-line table input parses to exactly one table block with
three rows, header first, the separator row consumed and surrounding pipes
and whitespace stripped. -/
theorem parseMarkdownBlocks_table_example :
    parseMarkdownBlocks
        (lit "| Name | Score |\n| ---- | ----: |\n| Alice | 10 |\n| Bob | 20 |") =
      some [MarkdownBlock.tableBlock
        [[lit "Name", lit "Score"], [lit "Alice", lit "10"], [lit "Bob", lit "20"]]] := by
  decide

/-- C6: the single-alternation inline scan of the example line yields the
seven segments in source order. -/
theorem parseInline_example :
    parseInlineMarkdownSegments
        (lit "Start [Docs](https://example.com) and **bold** plus `code`.") =
      [InlineSegment.text (lit "Start "),
       InlineSegment.link (lit "Docs") (lit "https://example.com"),
       InlineSegment.text (lit " and "),
       InlineSegment.bold (lit "bold"),
       InlineSegment.text (lit " plus "),
       InlineSegment.codeSeg (lit "code"),
       InlineSegment.text (lit ".")] := by
  decide

/-- C3: when a diagram render is attempted and fails (renderer returns
`null` or throws), the assembler emits exactly one literal code-style
paragraph holding the raw source, and no image element and no marker
element for that block. -/
theorem assembleBlock_diagram_failure (render : DiagramRenderer) (fs : FsOracle)
    (baseDir : Str) (d : Dialect) (content : Str)
    (hfail : render d content = Except.ok none ∨ render d content = Except.error ()) :
    assembleBlock true render fs baseDir (MarkdownBlock.diagram d content) =
      [DocxElement.codeParagraph content] ∧
    (∀ m w h, DocxElement.diagramImage m w h ∉
      assembleBlock true render fs baseDir (MarkdownBlock.diagram d content)) ∧
    (∀ m, DocxElement.hiddenMarker m ∉
      assembleBlock true render fs baseDir (MarkdownBlock.diagram d content)) := by
  have hmain : assembleBlock true render fs baseDir (MarkdownBlock.diagram d content) =
      [DocxElement.codeParagraph content] := by
    by_cases hc : content = []
    · simp [assembleBlock, hc]
    · rcases hfail with h | h <;> simp [assembleBlock, hc, h]
  refine ⟨hmain, ?_, ?_⟩ <;> simp [hmain]

/-- C3 witness: a failing renderer oracle on a concrete mermaid block. -/
theorem assembleBlock_diagram_failure_witness :
    assembleBlock true (fun _ _ => Except.ok none) ⟨fun _ => false, fun _ => none⟩ (lit "/b")
        (MarkdownBlock.diagram Dialect.mermaid (lit "graph TD; A-->B;")) =
      [DocxElement.codeParagraph (lit "graph TD; A-->B;")] :=
  (assembleBlock_diagram_failure (fun _ _ => Except.ok none) ⟨fun _ => false, fun _ => none⟩
    (lit "/b") Dialect.mermaid (lit "graph TD; A-->B;") (Or.inl rfl)).1

/-- C2: the marker decode inside `buildDiagramBlock` never fails — the
lenient base64 and lossy UTF-8 primitives are total, and a JSON parse
failure is caught — and it yields the empty "not a marker" result for
every input without the exact `MDX_DIAGRAM:` prefix, for every prefixed
input whose decoded payload fails to parse as JSON (a corrupt base64
payload surfaces here: base64 decoding itself never throws), and for
every prefixed input whose payload parses to a JSON value lacking a
string `type` field or a string `code` field. -/
theorem buildDiagramBlock_defensive (m : Str) :
    (startsWithLit markerTag m = false → buildDiagramBlock m = []) ∧
    (jsonParse (utf8Decode (base64Decode (m.drop 12))) = none → buildDiagramBlock m = []) ∧
    (∀ v, jsonParse (utf8Decode (base64Decode (m.drop 12))) = some v →
      ((∀ t, jsonField v (lit "type") ≠ some (JsonValue.jstr t)) ∨
       (∀ c, jsonField v (lit "code") ≠ some (JsonValue.jstr c))) →
      buildDiagramBlock m = []) := by
  refine ⟨fun h => ?_, fun h => ?_, fun v hv hfield => ?_⟩
  · simp [buildDiagramBlock, decodeDiagramMarker, h]
  · have hdec : decodeDiagramMarker m = none := by
      unfold decodeDiagramMarker
      by_cases hp : startsWithLit markerTag m = true
      · rw [if_pos hp, h]
      · simp [hp]
    simp [buildDiagramBlock, hdec]
  · have hdec : decodeDiagramMarker m = none := by
      unfold decodeDiagramMarker
      by_cases hp : startsWithLit markerTag m = true
      · rw [if_pos hp, hv]
        show markerFields v = none
        unfold markerFields
        split
        · rename_i t c hft hfc
          exfalso
          rcases hfield with hl | hr
          · exact hl t hft
          · exact hr c hfc
        · rfl
      · simp [hp]
    simp [buildDiagramBlock, hdec]

/-- C2 witness: an unprefixed string; a prefixed string whose corrupt
base64 payload decodes to bytes failing the JSON parse; and a prefixed
string whose payload is valid base64 of the JSON array `[1,2]`, which
parses but carries no string `type` or `code` field. -/
theorem buildDiagramBlock_defensive_witness :
    buildDiagramBlock (lit "hello") = [] ∧
    buildDiagramBlock (lit "MDX_DIAGRAM:!!!!") = [] ∧
    buildDiagramBlock (lit "MDX_DIAGRAM:WzEsMl0=") = [] :=
  ⟨(buildDiagramBlock_defensive (lit "hello")).1 (by decide),
   (buildDiagramBlock_defensive (lit "MDX_DIAGRAM:!!!!")).2.1 rfl,
   (buildDiagramBlock_defensive (lit "MDX_DIAGRAM:WzEsMl0=")).2.2
     (JsonValue.jarr [JsonValue.jnum (lit "1"), JsonValue.jnum (lit "2")]) rfl
     (Or.inl (fun t h => by simp [jsonField] at h))⟩

end MdExt

namespace MdExt

/-- C5 counterexample: the line `see ![x](y)` is non-blank and starts no
recognized construct, yet the parser produces an image block — the image
pattern is tested unanchored, so a mid-line image wins over the paragraph
rule — instead of one paragraph equal to the input. -/
theorem parseMarkdownBlocks_inline_image :
    parseMarkdownBlocks (lit "see ![x](y)") =
      some [MarkdownBlock.image (lit "x") (lit "y")] ∧
    parseMarkdownBlocks (lit "see ![x](y)") ≠
      some [MarkdownBlock.paragraph (lit "see ![x](y)")] := by
  constructor <;> decide

lemma paraCond_spec {l : Str} (h : paraCond l = true) :
    trim l ≠ [] ∧ startsWithLit (lit "#") l = false ∧
    startsWithLit (lit "```") l = false ∧ startsWithLit (lit ">") l = false ∧
    ulistTest l = false ∧ olistTest l = false ∧ containsChar '|' l = false ∧
    isHrLine l = false ∧ startsWithLit (lit "![") l = false := by
  simp only [paraCond, Bool.and_eq_true, decide_eq_true_eq, Bool.not_eq_true'] at h
  tauto

lemma headingParse_of_no_hash {l : Str} (h : startsWithLit (lit "#") l = false) :
    headingParse l = none := by
  have hk : (l.takeWhile (· = '#')).length = 0 := by
    cases l with
    | nil => simp
    | cons c cs =>
      have : ¬(c = '#') := by
        intro hc
        rw [hc] at h
        simp [lit, startsWithLit] at h
      simp [List.takeWhile, this]
  simp [headingParse, hk]

lemma splitNl_ne_nil : ∀ s : Str, splitNl s ≠ []
  | [] => by simp [splitNl]
  | c :: cs => by
    by_cases h : c = '\n'
    · simp [splitNl, h]
    · simp only [splitNl, if_neg h]
      rcases hs : splitNl cs with _ | ⟨l, ls⟩ <;> simp

lemma paraLoop_all : ∀ (rest acc : List Str), (∀ l ∈ rest, paraCond l = true) →
    acc.length + rest.length ≤ 1001 → paraLoop acc rest = (acc ++ rest, [])
  | [], acc, _, _ => by simp [paraLoop]
  | l :: ls, acc, h, hlen => by
    have hl : paraCond l = true := h l (by simp)
    simp only [paraLoop, hl, eq_self_iff_true, if_true]
    by_cases hcap : (acc ++ [l]).length > 1000
    · have hls : ls = [] := by
        rcases ls with _ | ⟨a, as⟩
        · rfl
        · exfalso; simp at hcap hlen; omega
      subst hls
      rw [if_pos hcap]
    · rw [if_neg hcap,
        paraLoop_all ls (acc ++ [l]) (fun x hx => h x (by simp [hx]))
          (by simp at hlen ⊢; omega)]
      simp

/-- C5 (amended): for input whose every line is non-blank, starts none of
the parser's construct triggers (`#`, fence, `>`, list marker, rule,
leading `![`), contains no `|` anywhere and no mid-line image pattern, and
which has at most 1001 lines (the safety cap breaks accumulation only
after the 1001st line), the parser yields exactly one paragraph equal to
the space-joined lines. -/
theorem parseMarkdownBlocks_paragraph (content : Str)
    (hall : ∀ l ∈ splitNl content, paraCond l = true ∧ imageFind l = none)
    (hlen : (splitNl content).length ≤ 1001) :
    parseMarkdownBlocks content =
      some [MarkdownBlock.paragraph (joinSep (lit " ") (splitNl content))] := by
  unfold parseMarkdownBlocks
  rcases hlines : splitNl content with _ | ⟨line, rest⟩
  · exact absurd hlines (splitNl_ne_nil content)
  · rw [hlines] at hall hlen
    have hline := hall line (by simp)
    obtain ⟨ht, hhash, hfence, hquote, hul, hol, hpipe, hhr, _⟩ := paraCond_spec hline.1
    have hrest : ∀ l ∈ line :: rest, paraCond l = true := fun l hl => (hall l hl).1
    have hploop := paraLoop_all (line :: rest) [] hrest (by simpa using hlen)
    simp only [List.length_cons, blocksGo, headingParse_of_no_hash hhash,
      hhr, hfence, hquote, hul, hol, hpipe, Bool.false_and, Bool.false_eq_true,
      if_false, hline.2]
    rw [if_pos ht]
    simp only [hploop]
    have hne : ([] : List Str) ++ line :: rest ≠ [] := by simp
    simp [blocksGo]



/-- C5 witness: a concrete two-line plain paragraph. -/
theorem parseMarkdownBlocks_paragraph_witness :
    parseMarkdownBlocks (lit "hello world\nsecond line") =
      some [MarkdownBlock.paragraph
        (joinSep (lit " ") (splitNl (lit "hello world\nsecond line")))] :=
  parseMarkdownBlocks_paragraph (lit "hello world\nsecond line") (by decide) (by decide)

lemma char_toNat_lt (c : Char) : c.toNat < 1114112 := by
  have h : Nat.isValidChar c.toNat := c.valid
  rcases h with h | ⟨_, h⟩ <;> omega

lemma utf8DecodeOne_encodeChar (c : Char) (bs : List Nat) :
    utf8DecodeOne (utf8EncodeChar c ++ bs) = some (c, bs) := by
  have hval : Nat.isValidChar c.toNat := c.valid
  have hlt : c.toNat < 1114112 := char_toNat_lt c
  by_cases h1 : c.toNat < 0x80
  · simp only [utf8EncodeChar, if_pos h1, List.cons_append, List.nil_append]
    simp only [utf8DecodeOne, if_pos h1, Char.ofNat_toNat]
  · by_cases h2 : c.toNat < 0x800
    · have e1 : ¬(0xC0 + c.toNat / 64 < 0x80) := by omega
      have e2 : ¬(0xC0 + c.toNat / 64 < 0xC2) := by omega
      have e3 : 0xC0 + c.toNat / 64 < 0xE0 := by omega
      have e4 : isCont (0x80 + c.toNat % 64) = true := by simp [isCont]; omega
      have e5 : (0xC0 + c.toNat / 64 - 0xC0) * 64 + (0x80 + c.toNat % 64 - 0x80) = c.toNat := by
        omega
      simp only [utf8EncodeChar, if_neg h1, if_pos h2, List.cons_append, List.nil_append]
      simp only [utf8DecodeOne, if_neg e1, if_neg e2, if_pos e3, e4, eq_self_iff_true, if_true,
        e5, Char.ofNat_toNat]
    · by_cases h3 : c.toNat < 0x10000
      · have e1 : ¬(0xE0 + c.toNat / 4096 < 0x80) := by omega
        have e2 : ¬(0xE0 + c.toNat / 4096 < 0xC2) := by omega
        have e3 : ¬(0xE0 + c.toNat / 4096 < 0xE0) := by omega
        have e4 : 0xE0 + c.toNat / 4096 < 0xF0 := by omega
        have e5 : isCont (0x80 + c.toNat / 64 % 64) = true := by simp [isCont]; omega
        have e6 : isCont (0x80 + c.toNat % 64) = true := by simp [isCont]; omega
        have e7 : (0xE0 + c.toNat / 4096 - 0xE0) * 4096 + (0x80 + c.toNat / 64 % 64 - 0x80) * 64 +
            (0x80 + c.toNat % 64 - 0x80) = c.toNat := by omega
        have e8 : 0x800 ≤ c.toNat := by omega
        simp only [utf8EncodeChar, if_neg h1, if_neg h2, if_pos h3, List.cons_append,
          List.nil_append]
        simp only [utf8DecodeOne, if_neg e1, if_neg e2, if_neg e3, if_pos e4, e5, e6,
          Bool.and_self, eq_self_iff_true, if_true, e7, if_pos (And.intro e8 hval),
          Char.ofNat_toNat]
      · have e1 : ¬(0xF0 + c.toNat / 262144 < 0x80) := by omega
        have e2 : ¬(0xF0 + c.toNat / 262144 < 0xC2) := by omega
        have e3 : ¬(0xF0 + c.toNat / 262144 < 0xE0) := by omega
        have e4 : ¬(0xF0 + c.toNat / 262144 < 0xF0) := by omega
        have e5 : 0xF0 + c.toNat / 262144 < 0xF5 := by omega
        have e6 : isCont (0x80 + c.toNat / 4096 % 64) = true := by simp [isCont]; omega
        have e7 : isCont (0x80 + c.toNat / 64 % 64) = true := by simp [isCont]; omega
        have e8 : isCont (0x80 + c.toNat % 64) = true := by simp [isCont]; omega
        have e9 : (0xF0 + c.toNat / 262144 - 0xF0) * 262144 +
            (0x80 + c.toNat / 4096 % 64 - 0x80) * 4096 +
            (0x80 + c.toNat / 64 % 64 - 0x80) * 64 + (0x80 + c.toNat % 64 - 0x80) = c.toNat := by
          omega
        have e10 : 0x10000 ≤ c.toNat := by omega
        simp only [utf8EncodeChar, if_neg h1, if_neg h2, if_neg h3, List.cons_append,
          List.nil_append]
        simp only [utf8DecodeOne, if_neg e1, if_neg e2, if_neg e3, if_neg e4, if_pos e5,
          e6, e7, e8, Bool.and_self, eq_self_iff_true, if_true, e9,
          if_pos (And.intro e10 hlt), Char.ofNat_toNat]

lemma utf8EncodeChar_ne_nil (c : Char) : utf8EncodeChar c ≠ [] := by
  simp only [utf8EncodeChar]
  split
  · simp
  · split
    · simp
    · split <;> simp

lemma utf8DecodeLoop_encode : ∀ (s : Str) (fuel : Nat), (utf8Encode s).length ≤ fuel →
    utf8DecodeLoop fuel (utf8Encode s) = s
  | [], fuel, _ => by
    simp only [utf8Encode, List.map_nil, List.flatten_nil]
    cases fuel <;> rfl
  | c :: rest, fuel, hfuel => by
    have henc : utf8Encode (c :: rest) = utf8EncodeChar c ++ utf8Encode rest := by
      simp [utf8Encode]
    rw [henc] at hfuel ⊢
    rcases hE : utf8EncodeChar c ++ utf8Encode rest with _ | ⟨b, bs2⟩
    · exact absurd (List.append_eq_nil.mp hE).1 (utf8EncodeChar_ne_nil c)
    · rw [hE] at hfuel
      rcases fuel with _ | f
      · simp at hfuel
      · have hlen : (utf8Encode rest).length ≤ f := by
          have h1 : 1 ≤ (utf8EncodeChar c).length := by
            rcases hc : utf8EncodeChar c with _ | _
            · exact absurd hc (utf8EncodeChar_ne_nil c)
            · simp
          have h2 := congrArg List.length hE
          simp at h2 hfuel
          omega
        have hone : utf8DecodeOne (b :: bs2) = some (c, utf8Encode rest) := by
          rw [← hE]; exact utf8DecodeOne_encodeChar c _
        simp [utf8DecodeLoop, hone, utf8DecodeLoop_encode rest f hlen]

lemma utf8_roundtrip (s : Str) : utf8Decode (utf8Encode s) = s :=
  utf8DecodeLoop_encode s _ le_rfl

lemma utf8EncodeChar_lt_256 (c : Char) : ∀ b ∈ utf8EncodeChar c, b < 256 := by
  have hlt := char_toNat_lt c
  intro b hb
  simp only [utf8EncodeChar] at hb
  split at hb
  · simp at hb; omega
  · split at hb
    · simp at hb; rcases hb with h | h <;> omega
    · split at hb
      · simp at hb; rcases hb with h | h | h <;> omega
      · simp at hb; rcases hb with h | h | h | h <;> omega

lemma utf8Encode_lt_256 : ∀ s : Str, ∀ b ∈ utf8Encode s, b < 256
  | [] => by simp [utf8Encode]
  | c :: rest => by
    intro b hb
    simp only [utf8Encode, List.map_cons, List.flatten_cons, List.mem_append] at hb
    rcases hb with h | h
    · exact utf8EncodeChar_lt_256 c b h
    · exact utf8Encode_lt_256 rest b (by simpa [utf8Encode] using h)

lemma b64DigitVal_b64Char (n : Nat) : b64DigitVal (b64Char n) = some (n % 64) := by
  have h : ∀ m, m < 64 → b64DigitVal (b64Alphabet.getD m '?') = some m := by decide
  have := h (n % 64) (Nat.mod_lt _ (by norm_num))
  simpa [b64Char] using this

lemma b64DigitVal_pad : b64DigitVal '=' = none := by decide

lemma base64DecodeGo_encode : ∀ bs : List Nat, (∀ b ∈ bs, b < 256) →
    base64DecodeGo (base64Encode bs) 0 0 = bs
  | [], _ => by simp [base64Encode, base64DecodeGo]
  | [b1], h => by
    have hb1 : b1 < 256 := h b1 (by simp)
    have e : b1 / 4 % 64 * 4 + b1 % 4 * 16 % 64 / 16 = b1 := by omega
    simp [base64Encode, base64DecodeGo, b64DigitVal_b64Char, b64DigitVal_pad, e]
  | [b1, b2], h => by
    have hb1 : b1 < 256 := h b1 (by simp)
    have hb2 : b2 < 256 := h b2 (by simp)
    have e1 : b1 / 4 % 64 * 4 + (b1 % 4 * 16 + b2 / 16) % 64 / 16 = b1 := by omega
    have e2 : (b1 % 4 * 16 + b2 / 16) % 64 % 16 * 16 + b2 % 16 * 4 % 64 / 4 = b2 := by omega
    simp [base64Encode, base64DecodeGo, b64DigitVal_b64Char, b64DigitVal_pad, e1, e2]
  | b1 :: b2 :: b3 :: rest, h => by
    have hb1 : b1 < 256 := h b1 (by simp)
    have hb2 : b2 < 256 := h b2 (by simp)
    have hb3 : b3 < 256 := h b3 (by simp)
    have ih := base64DecodeGo_encode rest (fun b hb => h b (by simp [hb]))
    have e1 : b1 / 4 % 64 * 4 + (b1 % 4 * 16 + b2 / 16) % 64 / 16 = b1 := by omega
    have e2 : (b1 % 4 * 16 + b2 / 16) % 64 % 16 * 16 + (b2 % 16 * 4 + b3 / 64) % 64 / 4 = b2 := by
      omega
    have e3 : (b2 % 16 * 4 + b3 / 64) % 64 % 4 * 64 + b3 % 64 = b3 := by omega
    simp [base64Encode, base64DecodeGo, b64DigitVal_b64Char, b64DigitVal_pad, e1, e2, e3, ih]

lemma base64_roundtrip (bs : List Nat) (h : ∀ b ∈ bs, b < 256) :
    base64Decode (base64Encode bs) = bs :=
  base64DecodeGo_encode bs h

end MdExt

namespace MdExt

lemma hexVal_hexDigitChar : ∀ m, m < 16 → hexVal (hexDigitChar m) = some m := by decide

lemma escChar_ne_nil (c : Char) : escChar c ≠ [] := by
  simp only [escChar]
  split
  · simp
  · split
    · simp
    · split
      · simp
      · split
        · simp
        · split
          · simp
          · split
            · simp
            · split
              · simp
              · split <;> simp

lemma parseStringStep_escChar (c : Char) (bs : Str) :
    parseStringStep (escChar c ++ bs) = some (some c, bs) := by
  by_cases h1 : c = '"'
  · subst h1; simp [escChar, parseStringStep, unescapeChar]
  · by_cases h2 : c = '\\'
    · subst h2; simp [escChar, parseStringStep, unescapeChar]
    · by_cases h3 : c.toNat = 8
      · have hc : Char.ofNat 8 = c := by rw [← h3, Char.ofNat_toNat]
        simp [escChar, h1, h2, h3, parseStringStep, unescapeChar]
        exact hc
      · by_cases h4 : c.toNat = 9
        · have hc : Char.ofNat 9 = c := by rw [← h4, Char.ofNat_toNat]
          simp [escChar, h1, h2, h3, h4, parseStringStep, unescapeChar]
          exact hc
        · by_cases h5 : c.toNat = 10
          · have hc : Char.ofNat 10 = c := by rw [← h5, Char.ofNat_toNat]
            simp [escChar, h1, h2, h3, h4, h5, parseStringStep, unescapeChar]
            exact hc
          · by_cases h6 : c.toNat = 12
            · have hc : Char.ofNat 12 = c := by rw [← h6, Char.ofNat_toNat]
              simp [escChar, h1, h2, h3, h4, h5, h6, parseStringStep, unescapeChar]
              exact hc
            · by_cases h7 : c.toNat = 13
              · have hc : Char.ofNat 13 = c := by rw [← h7, Char.ofNat_toNat]
                simp [escChar, h1, h2, h3, h4, h5, h6, h7, parseStringStep, unescapeChar]
                exact hc
              · by_cases h8 : c.toNat < 32
                · have hd1 : hexVal (hexDigitChar (c.toNat / 16)) = some (c.toNat / 16) :=
                    hexVal_hexDigitChar _ (by omega)
                  have hd2 : hexVal (hexDigitChar (c.toNat % 16)) = some (c.toNat % 16) :=
                    hexVal_hexDigitChar _ (by omega)
                  have hz : hexVal '0' = some 0 := by decide
                  have hv : ((0 * 16 + 0) * 16 + c.toNat / 16) * 16 + c.toNat % 16 = c.toNat := by
                    omega
                  simp [escChar, h1, h2, h3, h4, h5, h6, h7, h8, parseStringStep, hz, hd1, hd2]
                  have hv2 : c.toNat / 16 * 16 + c.toNat % 16 = c.toNat := by omega
                  rw [hv2]
                  exact ⟨Or.inl (by omega), Char.ofNat_toNat c⟩
                · simp [escChar, h1, h2, h3, h4, h5, h6, h7, h8, parseStringStep]

lemma parseStringLoop_escString : ∀ (s tail : Str) (fuel : Nat),
    (escString s).length + 1 ≤ fuel →
    parseStringLoop fuel (escString s ++ '"' :: tail) = some (s, tail)
  | [], tail, fuel, hfuel => by
    rcases fuel with _ | f
    · omega
    · simp [escString, parseStringLoop, parseStringStep]
  | c :: rest, tail, fuel, hfuel => by
    have hlenc : 1 ≤ (escChar c).length := by
      rcases hc : escChar c with _ | _
      · exact absurd hc (escChar_ne_nil c)
      · simp
    have hesc : escString (c :: rest) = escChar c ++ escString rest := by
      simp [escString]
    rw [hesc] at hfuel ⊢
    rcases fuel with _ | f
    · omega
    · have hrec : (escString rest).length + 1 ≤ f := by
        simp at hfuel; omega
      rw [List.append_assoc]
      simp [parseStringLoop, parseStringStep_escChar,
        parseStringLoop_escString rest tail f hrec]

lemma parseStringBody_escString (s tail : Str) :
    parseStringBody (escString s ++ '"' :: tail) = some (s, tail) := by
  unfold parseStringBody
  exact parseStringLoop_escString s tail _ (by simp)

lemma skipWs_cons {c : Char} (r : Str) (h : jsonWsChar c = false) :
    skipWs (c :: r) = c :: r := by
  simp [skipWs, List.dropWhile_cons, h]

lemma parseJsonValue_succ (g : Nat) (s : Str) :
    parseJsonValue (g + 1) s =
      parseJsonValueStep (parseJsonMembers g) (parseJsonElems g) s := rfl

lemma parseJsonMembers_succ (g : Nat) (s : Str) :
    parseJsonMembers (g + 1) s =
      parseJsonMembersStep (parseJsonValue g) (parseJsonMembers g) s := rfl

lemma jsonStringifyPair_decomp (t c : Str) :
    jsonStringifyPair t c =
      '\x7b' :: '"' :: (escString (lit "type") ++ '"' :: ':' :: '"' ::
        (escString t ++ '"' :: ',' :: '"' ::
          (escString (lit "code") ++ '"' :: ':' :: '"' ::
            (escString c ++ '"' :: '\x7d' :: [])))) := by
  have e1 : escString (lit "type") = 't' :: 'y' :: 'p' :: 'e' :: [] := by decide
  have e2 : escString (lit "code") = 'c' :: 'o' :: 'd' :: 'e' :: [] := by decide
  have hA : lit "\x7b\"type\":\"" =
      '\x7b' :: '"' :: 't' :: 'y' :: 'p' :: 'e' :: '"' :: ':' :: '"' :: [] := rfl
  have hB : lit "\",\"code\":\"" =
      '"' :: ',' :: '"' :: 'c' :: 'o' :: 'd' :: 'e' :: '"' :: ':' :: '"' :: [] := rfl
  have hC : lit "\"\x7d" = '"' :: '\x7d' :: [] := rfl
  simp only [jsonStringifyPair, e1, e2, hA, hB, hC, List.append_assoc, List.cons_append,
    List.nil_append]

lemma parseJsonValue_string (s tail : Str) (f : Nat) :
    parseJsonValue (f + 1) ('"' :: (escString s ++ '"' :: tail)) =
      some (JsonValue.jstr s, tail) := by
  have hws : skipWs ('"' :: (escString s ++ '"' :: tail)) =
      '"' :: (escString s ++ '"' :: tail) := skipWs_cons _ (by decide)
  rw [parseJsonValue_succ]
  simp [parseJsonValueStep, hws, parseStringBody_escString]

lemma parseJsonMembers_last (k s tail : Str) (f : Nat) :
    parseJsonMembers (f + 1 + 1)
        ('"' :: (escString k ++ '"' :: ':' :: '"' :: (escString s ++ '"' :: '\x7d' :: tail))) =
      some ([(k, JsonValue.jstr s)], tail) := by
  have hws1 : skipWs ('"' :: (escString k ++ '"' :: ':' :: '"' ::
      (escString s ++ '"' :: '\x7d' :: tail))) =
      '"' :: (escString k ++ '"' :: ':' :: '"' :: (escString s ++ '"' :: '\x7d' :: tail)) :=
    skipWs_cons _ (by decide)
  have hws2 : skipWs (':' :: '"' :: (escString s ++ '"' :: '\x7d' :: tail)) =
      ':' :: '"' :: (escString s ++ '"' :: '\x7d' :: tail) := skipWs_cons _ (by decide)
  have hws3 : skipWs ('\x7d' :: tail) = '\x7d' :: tail := skipWs_cons _ (by decide)
  rw [parseJsonMembers_succ]
  simp [parseJsonMembersStep, hws1, hws2, hws3, parseStringBody_escString,
    parseJsonValue_string]

lemma parseJsonMembers_pair (t c : Str) (f : Nat) :
    parseJsonMembers (f + 1 + 1 + 1)
        ('"' :: (escString (lit "type") ++ '"' :: ':' :: '"' ::
          (escString t ++ '"' :: ',' :: '"' ::
            (escString (lit "code") ++ '"' :: ':' :: '"' ::
              (escString c ++ '"' :: '\x7d' :: []))))) =
      some ([(lit "type", JsonValue.jstr t), (lit "code", JsonValue.jstr c)], []) := by
  have hws1 : skipWs ('"' :: (escString (lit "type") ++ '"' :: ':' :: '"' ::
      (escString t ++ '"' :: ',' :: '"' ::
        (escString (lit "code") ++ '"' :: ':' :: '"' ::
          (escString c ++ '"' :: '\x7d' :: []))))) =
      '"' :: (escString (lit "type") ++ '"' :: ':' :: '"' ::
        (escString t ++ '"' :: ',' :: '"' ::
          (escString (lit "code") ++ '"' :: ':' :: '"' ::
            (escString c ++ '"' :: '\x7d' :: [])))) := skipWs_cons _ (by decide)
  have hws2 : skipWs (':' :: '"' :: (escString t ++ '"' :: ',' :: '"' ::
      (escString (lit "code") ++ '"' :: ':' :: '"' :: (escString c ++ '"' :: '\x7d' :: [])))) =
      ':' :: '"' :: (escString t ++ '"' :: ',' :: '"' ::
        (escString (lit "code") ++ '"' :: ':' :: '"' :: (escString c ++ '"' :: '\x7d' :: []))) :=
    skipWs_cons _ (by decide)
  have hws3 : skipWs (',' :: '"' :: (escString (lit "code") ++ '"' :: ':' :: '"' ::
      (escString c ++ '"' :: '\x7d' :: []))) =
      ',' :: '"' :: (escString (lit "code") ++ '"' :: ':' :: '"' ::
        (escString c ++ '"' :: '\x7d' :: [])) := skipWs_cons _ (by decide)
  rw [parseJsonMembers_succ]
  simp [parseJsonMembersStep, hws1, hws2, hws3, parseStringBody_escString,
    parseJsonValue_string, parseJsonMembers_last]

lemma parseJsonValue_stringifyPair (t c : Str) (f : Nat) :
    parseJsonValue (f + 1 + 1 + 1 + 1) (jsonStringifyPair t c) =
      some (JsonValue.jobj [(lit "type", JsonValue.jstr t), (lit "code", JsonValue.jstr c)],
        []) := by
  rw [jsonStringifyPair_decomp]
  have hws1 : skipWs ('\x7b' :: '"' :: (escString (lit "type") ++ '"' :: ':' :: '"' ::
      (escString t ++ '"' :: ',' :: '"' ::
        (escString (lit "code") ++ '"' :: ':' :: '"' ::
          (escString c ++ '"' :: '\x7d' :: []))))) =
      '\x7b' :: '"' :: (escString (lit "type") ++ '"' :: ':' :: '"' ::
        (escString t ++ '"' :: ',' :: '"' ::
          (escString (lit "code") ++ '"' :: ':' :: '"' ::
            (escString c ++ '"' :: '\x7d' :: [])))) := skipWs_cons _ (by decide)
  have hws2 : skipWs ('"' :: (escString (lit "type") ++ '"' :: ':' :: '"' ::
      (escString t ++ '"' :: ',' :: '"' ::
        (escString (lit "code") ++ '"' :: ':' :: '"' ::
          (escString c ++ '"' :: '\x7d' :: []))))) =
      '"' :: (escString (lit "type") ++ '"' :: ':' :: '"' ::
        (escString t ++ '"' :: ',' :: '"' ::
          (escString (lit "code") ++ '"' :: ':' :: '"' ::
            (escString c ++ '"' :: '\x7d' :: [])))) := skipWs_cons _ (by decide)
  rw [parseJsonValue_succ]
  simp [parseJsonValueStep, hws1, hws2, parseJsonMembers_pair]

lemma jsonStringifyPair_ne_nil_aux (t c : Str) : 1 ≤ (jsonStringifyPair t c).length := by
  rw [jsonStringifyPair_decomp]; simp

lemma jsonParse_stringifyPair (t c : Str) :
    jsonParse (jsonStringifyPair t c) =
      some (JsonValue.jobj [(lit "type", JsonValue.jstr t), (lit "code", JsonValue.jstr c)]) := by
  unfold jsonParse
  have hlen := jsonStringifyPair_ne_nil_aux t c
  obtain ⟨f, hf⟩ : ∃ f, 2 * (jsonStringifyPair t c).length + 2 = f + 1 + 1 + 1 + 1 :=
    ⟨2 * (jsonStringifyPair t c).length - 2, by omega⟩
  rw [hf, parseJsonValue_stringifyPair]
  simp [skipWs]

lemma jsonField_pair_type (t c : Str) :
    jsonField (JsonValue.jobj [(lit "type", JsonValue.jstr t), (lit "code", JsonValue.jstr c)])
      (lit "type") = some (JsonValue.jstr t) := by
  have h1 : (decide ((lit "code") = (lit "type"))) = false := by decide
  have h2 : (decide ((lit "type") = (lit "type"))) = true := by decide
  simp [jsonField, jsonLookup, List.find?, h1, h2]

lemma jsonField_pair_code (t c : Str) :
    jsonField (JsonValue.jobj [(lit "type", JsonValue.jstr t), (lit "code", JsonValue.jstr c)])
      (lit "code") = some (JsonValue.jstr c) := by
  have h1 : (decide ((lit "code") = (lit "code"))) = true := by decide
  simp [jsonField, jsonLookup, List.find?, h1]

lemma startsWithLit_append_self : ∀ p s : Str, startsWithLit p (p ++ s) = true
  | [], s => rfl
  | c :: cs, s => by simp [startsWithLit, startsWithLit_append_self cs s]

/-- C1 (amended): for either dialect and every source string — embedded
newlines, non-ASCII, control characters included — the decode chain inside
`buildDiagramBlock` recovers the exact pair (dialect, source) from the
encoded marker; the fenced block the reverse pass splices in carries the
dialect verbatim but the source normalised by `trimEnd`, hence exactly the
original source whenever it has no trailing whitespace. -/
theorem diagramMarker_roundtrip (d : Dialect) (s : Str) :
    decodeDiagramMarker (encodeDiagramMarker d s) = some (dialectStr d, s) ∧
    buildDiagramBlock (encodeDiagramMarker d s) = fencedBlock (dialectStr d) (trimEnd s) := by
  have hdec : decodeDiagramMarker (encodeDiagramMarker d s) = some (dialectStr d, s) := by
    unfold decodeDiagramMarker encodeDiagramMarker
    rw [if_pos (startsWithLit_append_self markerTag _)]
    rw [show (12 : Nat) = markerTag.length from rfl, List.drop_left]
    rw [base64_roundtrip _ (utf8Encode_lt_256 _), utf8_roundtrip, jsonParse_stringifyPair]
    simp [markerFields, jsonField_pair_type, jsonField_pair_code]
  refine ⟨hdec, ?_⟩
  unfold buildDiagramBlock
  rw [hdec]
  have ht : trim (dialectStr d) = dialectStr d := by cases d <;> decide
  have hne : ¬(trim (dialectStr d) = []) := by cases d <;> decide
  have hne2 : ¬(dialectStr d = []) := by cases d <;> decide
  simp [ht, hne, hne2]

/-- C1 counterexample: encoding the mermaid source `"g\n"` and decoding it
through `buildDiagramBlock` yields the fenced block for the trimmed source
`"g"`, not for the original `"g\n"`: the trailing newline is lost. -/
theorem diagramMarker_trailing_ws_lost :
    buildDiagramBlock (encodeDiagramMarker Dialect.mermaid (lit "g\n")) =
      fencedBlock (lit "mermaid") (lit "g") ∧
    buildDiagramBlock (encodeDiagramMarker Dialect.mermaid (lit "g\n")) ≠
      fencedBlock (lit "mermaid") (lit "g\n") := by
  constructor <;> decide

end MdExt

namespace MdExt

lemma head_dropWhile_ne (p : Char → Bool) : ∀ (l : Str) (x : Char),
    (l.dropWhile p).head? = some x → p x = false
  | [], x => by simp
  | c :: rest, x => by
    by_cases h : p c
    · simp only [List.dropWhile_cons, h, if_true]
      exact head_dropWhile_ne p rest x
    · simp only [List.dropWhile_cons, h, if_false, Bool.false_eq_true, List.head?_cons]
      intro he
      cases he
      simpa using h

lemma collapseGo_head : ∀ (fuel : Nat) (s : Str), (collapseGo fuel s).head? = s.head?
  | 0, _ => rfl
  | _ + 1, [] => rfl
  | fuel + 1, c :: rest => by
    by_cases h : c = '\n' ∧ startsWithLit ['\n', '\n'] rest = true
    · rw [collapseGo, if_pos h]
      simp [h.1]
    · rw [collapseGo, if_neg h]
      simp

lemma startsWithLit_nl_head (p2 t : Str) (h : ∀ x, t.head? = some x → ¬x = '\n') :
    startsWithLit ('\n' :: p2) t = false := by
  rcases t with _ | ⟨d, t2⟩
  · rfl
  · have hd := h d rfl
    simp [startsWithLit]
    intro he
    exact absurd he.symm hd

lemma startsWithLit_head : ∀ (a : Char) (ps t : Str),
    startsWithLit (a :: ps) t = true → startsWithLit [a] t = true
  | a, ps, [], h => by simp [startsWithLit] at h
  | a, ps, b :: ts, h => by
    simp [startsWithLit] at h ⊢
    exact h.1

lemma collapseGo_noTriple : ∀ (fuel : Nat) (s : Str), s.length ≤ fuel →
    containsSub ['\n', '\n', '\n'] (collapseGo fuel s) = false
  | fuel, [], _ => by cases fuel <;> rfl
  | 0, c :: rest, h => by simp at h
  | fuel + 1, c :: rest, h => by
    have hlen : rest.length ≤ fuel := by simp at h; omega
    by_cases hp : c = '\n' ∧ startsWithLit ['\n', '\n'] rest = true
    · rw [collapseGo, if_pos hp]
      have ih := collapseGo_noTriple fuel (rest.dropWhile (· = '\n'))
        (le_trans ((List.dropWhile_sublist _).length_le) hlen)
      have hhd : ∀ x, (collapseGo fuel (rest.dropWhile (· = '\n'))).head? = some x →
          ¬x = '\n' := by
        intro x hx
        rw [collapseGo_head] at hx
        have := head_dropWhile_ne _ _ _ hx
        simpa using this
      have h1 : startsWithLit ['\n', '\n']
          (collapseGo fuel (rest.dropWhile (· = '\n'))) = false :=
        startsWithLit_nl_head _ _ hhd
      have h2 : startsWithLit ['\n']
          (collapseGo fuel (rest.dropWhile (· = '\n'))) = false :=
        startsWithLit_nl_head _ _ hhd
      simp [containsSub, startsWithLit, h1, h2, ih]
    · rw [collapseGo, if_neg hp]
      have ih := collapseGo_noTriple fuel rest hlen
      simp only [containsSub, Bool.or_eq_false_iff]
      refine ⟨?_, ih⟩
      by_cases hc : c = '\n'
      · subst hc
        have hr : startsWithLit ['\n', '\n'] rest = false := by
          cases hsw : startsWithLit ['\n', '\n'] rest
          · rfl
          · exact absurd ⟨rfl, hsw⟩ hp
        rcases rest with _ | ⟨d, rest2⟩
        · cases fuel <;> simp [collapseGo, startsWithLit]
        · have hfd : 1 ≤ fuel := by simp at hlen; omega
          by_cases hd : d = '\n'
          · subst hd
            have hr2 : startsWithLit ['\n'] rest2 = false := by
              simpa [startsWithLit] using hr
            have hhd2 : ∀ x, ∀ f2 : Nat, (collapseGo f2 rest2).head? = some x →
                ¬x = '\n' := by
              intro x f2 hx hxe
              rw [collapseGo_head] at hx
              rcases rest2 with _ | ⟨e, rest3⟩
              · simp at hx
              · simp at hx
                rw [hxe] at hx
                rw [hx] at hr2
                simp [startsWithLit] at hr2
            have hnp : ¬('\n' = '\n' ∧ startsWithLit ['\n', '\n'] rest2 = true) := by
              rintro ⟨-, hcon⟩
              have := startsWithLit_head _ _ _ hcon
              rw [hr2] at this
              simp at this
            rcases fuel with _ | f2
            · omega
            · rw [collapseGo, if_neg hnp]
              have h4 : startsWithLit ['\n'] (collapseGo f2 rest2) = false :=
                startsWithLit_nl_head _ _ (fun x hx => hhd2 x f2 hx)
              simp [startsWithLit, h4]
          · have hhd3 : ∀ x, (collapseGo fuel (d :: rest2)).head? = some x → ¬x = '\n' := by
              intro x hx hxe
              rw [collapseGo_head] at hx
              simp at hx
              rw [hxe] at hx
              exact hd hx
            have h5 : startsWithLit ['\n', '\n'] (collapseGo fuel (d :: rest2)) = false :=
              startsWithLit_nl_head _ _ hhd3
            simp [startsWithLit, h5]
      · have hne : ¬('\n' = c) := fun he => hc he.symm
        simp [startsWithLit, hne]

lemma collapse_noTriple (s : Str) :
    containsSub ['\n', '\n', '\n'] (collapseNewlines s) = false :=
  collapseGo_noTriple s.length s le_rfl

end MdExt

namespace MdExt

lemma containsSub_nil_pat : ∀ t : Str, containsSub [] t = true
  | [] => rfl
  | _ :: ts => by simp [containsSub, startsWithLit, containsSub_nil_pat ts]

lemma startsWithLit_extend : ∀ p l t : Str,
    startsWithLit p l = true → startsWithLit p (l ++ t) = true
  | [], _, _, _ => rfl
  | a :: ps, [], t, h => by simp [startsWithLit] at h
  | a :: ps, b :: ls, t, h => by
    simp [startsWithLit] at h ⊢
    exact ⟨h.1, startsWithLit_extend ps ls t h.2⟩

lemma containsSub_append_left : ∀ p l t : Str,
    containsSub p l = true → containsSub p (l ++ t) = true
  | p, [], t, h => by
    rcases p with _ | ⟨a, ps⟩
    · exact containsSub_nil_pat t
    · simp [containsSub, startsWithLit] at h
  | p, c :: ls, t, h => by
    simp only [containsSub, Bool.or_eq_true] at h
    simp only [List.cons_append, containsSub, Bool.or_eq_true]
    rcases h with h | h
    · exact Or.inl (startsWithLit_extend p _ t h)
    · exact Or.inr (containsSub_append_left p ls t h)

lemma containsSub_append_right : ∀ p t l : Str,
    containsSub p l = true → containsSub p (t ++ l) = true
  | p, [], l, h => by simpa using h
  | p, c :: ts, l, h => by
    simp only [List.cons_append, containsSub, Bool.or_eq_true]
    exact Or.inr (containsSub_append_right p ts l h)

lemma trimStart_noSub {p s : Str} (h : containsSub p s = false) :
    containsSub p (trimStart s) = false := by
  cases hcs : containsSub p (trimStart s)
  · rfl
  · exfalso
    have hsplit : s.takeWhile jsWhitespace ++ trimStart s = s :=
      List.takeWhile_append_dropWhile jsWhitespace s
    have := containsSub_append_right p (s.takeWhile jsWhitespace) (trimStart s) hcs
    rw [hsplit, h] at this
    simp at this

lemma trimEnd_split (s : Str) :
    trimEnd s ++ (s.reverse.takeWhile jsWhitespace).reverse = s := by
  rw [trimEnd, ← List.reverse_append, List.takeWhile_append_dropWhile, List.reverse_reverse]

lemma trimEnd_noSub {p s : Str} (h : containsSub p s = false) :
    containsSub p (trimEnd s) = false := by
  cases hcs : containsSub p (trimEnd s)
  · rfl
  · exfalso
    have := containsSub_append_left p (trimEnd s)
      ((s.reverse.takeWhile jsWhitespace).reverse) hcs
    rw [trimEnd_split, h] at this
    simp at this

lemma trim_noSub {p s : Str} (h : containsSub p s = false) :
    containsSub p (trim s) = false :=
  trimEnd_noSub (trimStart_noSub h)

lemma restoreBlocks_nil (md : Str) : restoreBlocks md [] = md := rfl

/-- C9 (amended): the `\n{3,} → \n\n` collapse is the last textual cleanup
before trimming, so the docx-converter `htmlToMarkdown` never emits three
consecutive newlines, and the markdown-docx `htmlToMarkdown` never does so
when no diagram marker was extracted; restored diagram blocks, however,
are spliced in after the collapse. -/
theorem htmlToMarkdown_newline_collapse (html : Str) :
    containsSub ['\n', '\n', '\n'] (htmlToMarkdownDocx html) = false ∧
    ((extractDiagramMarkers html).2 = [] →
      containsSub ['\n', '\n', '\n'] (htmlToMarkdown html) = false) := by
  constructor
  · unfold htmlToMarkdownDocx
    exact trim_noSub (collapse_noTriple _)
  · intro hx
    simp only [htmlToMarkdown]
    rw [hx, restoreBlocks_nil]
    exact trim_noSub (collapse_noTriple _)

/-- C9 witness: plain HTML with no markers. -/
theorem htmlToMarkdown_newline_collapse_witness :
    containsSub ['\n', '\n', '\n'] (htmlToMarkdown (lit "<p>hi</p>")) = false :=
  (htmlToMarkdown_newline_collapse (lit "<p>hi</p>")).2 (by decide)

/-- C9 counterexample: a paragraph followed by a hidden diagram marker.
The marker is extracted, the collapse runs on the tokenised text, and the
restored fenced block (wrapped in two blank lines on each side) lands next
to the paragraph's own two newlines, yielding four consecutive newlines in
the final output. -/
theorem htmlToMarkdown_triple_newline :
    containsSub ['\n', '\n', '\n']
      (htmlToMarkdown
        (lit "<p>a</p>MDX_DIAGRAM:eyJ0eXBlIjoibWVybWFpZCIsImNvZGUiOiJnIn0=")) = true := by
  decide

end MdExt

namespace MdExt

lemma b64Char_scanChar (n : Nat) : isB64ScanChar (b64Char n) = true := by
  have h : ∀ m, m < 64 → isB64ScanChar (b64Alphabet.getD m '?') = true := by decide
  have := h (n % 64) (Nat.mod_lt _ (by norm_num))
  simpa [b64Char] using this

lemma base64Encode_scanChars : ∀ bs : List Nat, ∀ ch ∈ base64Encode bs,
    isB64ScanChar ch = true
  | [] => by simp [base64Encode]
  | [b1] => by
    intro ch hch
    simp only [base64Encode, List.mem_cons] at hch
    rcases hch with h | h | h | h | h
    · subst h; exact b64Char_scanChar _
    · subst h; exact b64Char_scanChar _
    · subst h; decide
    · subst h; decide
    · simp at h
  | [b1, b2] => by
    intro ch hch
    simp only [base64Encode, List.mem_cons] at hch
    rcases hch with h | h | h | h | h
    · subst h; exact b64Char_scanChar _
    · subst h; exact b64Char_scanChar _
    · subst h; exact b64Char_scanChar _
    · subst h; decide
    · simp at h
  | b1 :: b2 :: b3 :: rest => by
    intro ch hch
    simp only [base64Encode, List.mem_cons] at hch
    rcases hch with h | h | h | h | h
    · subst h; exact b64Char_scanChar _
    · subst h; exact b64Char_scanChar _
    · subst h; exact b64Char_scanChar _
    · subst h; exact b64Char_scanChar _
    · exact base64Encode_scanChars rest ch h

lemma base64Encode_ne_nil : ∀ bs : List Nat, bs ≠ [] → base64Encode bs ≠ []
  | [], h => absurd rfl h
  | [_], _ => by simp [base64Encode]
  | [_, _], _ => by simp [base64Encode]
  | _ :: _ :: _ :: _, _ => by simp [base64Encode]

lemma utf8Encode_ne_nil {s : Str} (h : s ≠ []) : utf8Encode s ≠ [] := by
  rcases s with _ | ⟨c, rest⟩
  · exact absurd rfl h
  · simp only [utf8Encode, List.map_cons, List.flatten_cons]
    intro hcontra
    exact utf8EncodeChar_ne_nil c (List.append_eq_nil.mp hcontra).1

lemma jsonStringifyPair_ne_nil (t c : Str) : jsonStringifyPair t c ≠ [] := by
  intro h
  simp only [jsonStringifyPair, List.append_eq_nil] at h
  exact absurd h.1.1.1.1 (by decide)

lemma takeWhile_all {p : Char → Bool} : ∀ l : Str, (∀ x ∈ l, p x = true) →
    l.takeWhile p = l
  | [], _ => rfl
  | c :: rest, h => by
    have hc := h c (by simp)
    simp [List.takeWhile_cons, hc, takeWhile_all rest (fun x hx => h x (by simp [hx]))]

/-- C10: every encoder-produced marker is the literal `MDX_DIAGRAM:` prefix
followed by a nonempty payload drawn entirely from the standard base64
alphabet `[A-Za-z0-9+/=]`, and the reverse assembler's hidden-text scanning
pattern therefore matches the whole marker: the match consumes exactly the
marker's length and captures the marker itself. -/
theorem encodeDiagramMarker_scan (d : Dialect) (code : Str) :
    startsWithLit markerTag (encodeDiagramMarker d code) = true ∧
    (encodeDiagramMarker d code).drop 12 ≠ [] ∧
    (∀ ch ∈ (encodeDiagramMarker d code).drop 12, isB64ScanChar ch = true) ∧
    hiddenMarkerMatch (encodeDiagramMarker d code) =
      some ((encodeDiagramMarker d code).length, encodeDiagramMarker d code) := by
  have hdrop : (encodeDiagramMarker d code).drop 12 =
      base64Encode (utf8Encode (jsonStringifyPair (dialectStr d) code)) := by
    unfold encodeDiagramMarker
    rw [show (12 : Nat) = markerTag.length from rfl, List.drop_left]
  have hne : base64Encode (utf8Encode (jsonStringifyPair (dialectStr d) code)) ≠ [] :=
    base64Encode_ne_nil _ (utf8Encode_ne_nil (jsonStringifyPair_ne_nil _ _))
  have hall := base64Encode_scanChars (utf8Encode (jsonStringifyPair (dialectStr d) code))
  have hpre : startsWithLit markerTag (encodeDiagramMarker d code) = true := by
    unfold encodeDiagramMarker
    exact startsWithLit_append_self markerTag _
  have hlen : (encodeDiagramMarker d code).length =
      12 + (base64Encode (utf8Encode (jsonStringifyPair (dialectStr d) code))).length := by
    unfold encodeDiagramMarker
    rw [List.length_append, show markerTag.length = 12 from rfl]
  refine ⟨hpre, by rw [hdrop]; exact hne, by rw [hdrop]; exact hall, ?_⟩
  unfold hiddenMarkerMatch
  rw [show lit "MDX_DIAGRAM:" = markerTag from rfl, if_pos hpre, hdrop,
    takeWhile_all _ hall]
  rw [if_neg (by simpa using hne)]
  rw [show (encodeDiagramMarker d code).take
      (12 + (base64Encode (utf8Encode (jsonStringifyPair (dialectStr d) code))).length) =
      encodeDiagramMarker d code by rw [← hlen]; exact List.take_length _, ← hlen]

/-- C10 witness: the mermaid marker for source `g`. -/
theorem encodeDiagramMarker_scan_witness :
    hiddenMarkerMatch (encodeDiagramMarker Dialect.mermaid (lit "g")) =
      some ((encodeDiagramMarker Dialect.mermaid (lit "g")).length,
        encodeDiagramMarker Dialect.mermaid (lit "g")) :=
  (encodeDiagramMarker_scan Dialect.mermaid (lit "g")).2.2.2

end MdExt
